import Mathlib

/-!
Shallow embedding of the core of the OS-FileSystem repository
(src/fs_core/datastructures.py, disk_manager.py, dir_ops.py, file_ops.py,
persistence_manager.py, user_management/user_auth.py), together with proofs
settling the claims C1-C10 about it.

Modelling conventions, used consistently below:
* Python ints that are provably non-negative on every code path (sizes,
  offsets, ids, counters of Nat kind) are `Nat`; counters that are freely
  incremented/decremented (link_count, free counts in the superblock) are
  `Int`.
* `time.time()` is modelled by an explicit `now : Nat` argument threaded
  into every operation that stamps times.
* A data block (a Python `bytearray`) is a `BlockData`: either raw bytes
  (`bytes`), or the result of `pickle.dumps` of a list of directory items
  (`dirList`), or of a list of ints (`natList`).  `pickle.dumps`/`loads`
  round-trip object graphs, so storing the structured value is faithful;
  the byte length of `pickle.dumps` is library behaviour that we do not
  reimplement, so it is a parameter (`psize`, `psizeN`) of every operation
  that serialises.
* A directory payload is a list of `DirItem`: either a real
  `DirectoryEntry` object or a `DetailEntry` (the plain dict produced by
  `list_directory`; the second `delete_file`/`create_hard_link` in
  file_ops.py write such dicts back into directory blocks).  Accessing
  `.name` on a dict raises `AttributeError` in Python; lookups model that
  crash as a distinguished `none`.
* Exceptions that the source catches are modelled by the Option/Bool result
  the handler produces; exceptions that escape the function are modelled by
  an outer `Option` (`none` = uncaught exception) where a claim needs the
  function, and are noted in comments otherwise.
-/

namespace SimFS

/-- FileType enum from datastructures.py. -/
inductive FileType
  | FILE
  | DIRECTORY
  | SYMBOLIC_LINK
  deriving DecidableEq, Repr

/-- OpenMode enum from datastructures.py. -/
inductive OpenMode
  | READ
  | WRITE
  | APPEND
  | READ_WRITE
  deriving DecidableEq, Repr

/-- DirectoryEntry from datastructures.py (name, inode_id, is_hardlink).
The constructor's own validation (no '/' in the name, length at most 255)
is modelled at each construction site that can receive an unvalidated name. -/
structure DirectoryEntry where
  name : String
  inode_id : Nat
  is_hardlink : Bool := false
  deriving DecidableEq, Repr

/-- The plain dict built for one entry by `list_directory` in dir_ops.py.
`owner_uid = none` and `error = some _` correspond to the dict built for a
dangling entry (inode missing), which has no 'owner_uid' key and an 'error'
key. -/
structure DetailEntry where
  name : String
  inode_id : Nat
  typeName : String
  size : Nat
  permissions : String
  mtime : Nat
  link_count : Int
  owner_uid : Option Nat
  error : Option String
  deriving DecidableEq, Repr

/-- One element of a directory payload: a real DirectoryEntry object, or a
detail dict (written back into directory blocks by the second
`delete_file` / `create_hard_link` in file_ops.py). -/
inductive DirItem
  | entry (e : DirectoryEntry)
  | detail (d : DetailEntry)
  deriving DecidableEq, Repr

/-- Contents of one data block.  `bytes` is raw content (file data, symlink
targets, zero-initialised blocks); the other two are pickled payloads. -/
inductive BlockData
  | bytes (data : List Nat)
  | dirList (items : List DirItem)
  | natList (xs : List Nat)
  deriving DecidableEq, Repr

/-- Inode from datastructures.py.  `data_block_indices` is the direct block
list (the spec's direct_block_indices). -/
structure Inode where
  id : Nat
  type : FileType
  size : Nat
  blocks_count : Nat
  data_block_indices : List Nat
  indirect_block_indices : List Nat
  double_indirect_block_indices : List Nat
  owner_uid : Nat
  group_id : Nat
  permissions : Nat
  atime : Nat
  mtime : Nat
  ctime : Nat
  link_count : Int
  is_encrypted : Bool
  is_compressed : Bool
  deriving DecidableEq, Repr

/-- Fresh inode as built by `Inode.__init__` (size 0, no blocks, times set
to the current time, link_count 1). -/
def mkInode (inode_id : Nat) (file_type : FileType) (owner_uid : Nat)
    (permissions : Nat) (now : Nat) : Inode :=
  { id := inode_id
    type := file_type
    size := 0
    blocks_count := 0
    data_block_indices := []
    indirect_block_indices := []
    double_indirect_block_indices := []
    owner_uid := owner_uid
    group_id := 0
    permissions := permissions
    atime := now
    mtime := now
    ctime := now
    link_count := 1
    is_encrypted := false
    is_compressed := false }

/-- Superblock from datastructures.py. -/
structure Superblock where
  magic_number : Nat
  total_blocks : Nat
  total_inodes : Nat
  block_size : Nat
  free_blocks_count : Int
  free_inodes_count : Int
  root_inode_id : Option Nat
  deriving DecidableEq, Repr

/-- Superblock constructor. -/
def mkSuperblock (total_blocks total_inodes block_size : Nat) : Superblock :=
  { magic_number := 0x53494D4653
    total_blocks := total_blocks
    total_inodes := total_inodes
    block_size := block_size
    free_blocks_count := (total_blocks : Int)
    free_inodes_count := (total_inodes : Int)
    root_inode_id := none }

/-- DiskManager state from disk_manager.py.  In the source `data_blocks`
holds `Optional[bytearray]`, but every slot is set to a bytearray by
`_initialize_storage` and never set back to None, so the Option layer is
dropped. -/
structure DiskManager where
  superblock : Option Superblock
  inode_bitmap : List Bool
  data_block_bitmap : List Bool
  inode_table : List (Option Inode)
  data_blocks : List BlockData
  is_formatted : Bool
  deriving DecidableEq, Repr

instance : Inhabited DiskManager := ⟨⟨none, [], [], [], [], false⟩⟩

/-- DiskManager.__init__: empty, unformatted state. -/
def DiskManager.init : DiskManager :=
  { superblock := none
    inode_bitmap := []
    data_block_bitmap := []
    inode_table := []
    data_blocks := []
    is_formatted := false }

/-- DiskManager._initialize_storage. -/
def initialize_storage (num_inodes num_blocks block_size : Nat) : DiskManager :=
  { superblock := some (mkSuperblock num_blocks num_inodes block_size)
    inode_bitmap := List.replicate num_inodes true
    data_block_bitmap := List.replicate num_blocks true
    inode_table := List.replicate num_inodes none
    data_blocks := List.replicate num_blocks (BlockData.bytes (List.replicate block_size 0))
    is_formatted := false }

/-- Python's `bitmap.index(True)`: index of the first free bit, None when
the ValueError is raised. -/
def firstTrue : List Bool → Option Nat
  | [] => none
  | b :: t => if b then some 0 else (firstTrue t).map (· + 1)

/-- DiskManager.allocate_inode.  Returns the allocated id (None on
exhaustion) and the updated state.  `uid_for_inode` is unused in the
source as well. -/
def allocate_inode (dm : DiskManager) : Option Nat × DiskManager :=
  match dm.superblock with
  | none => (none, dm)
  | some sb =>
    if sb.free_inodes_count = 0 then (none, dm)
    else
      match firstTrue dm.inode_bitmap with
      | none => (none, dm)
      | some inode_id =>
        (some inode_id,
          { dm with
            inode_bitmap := dm.inode_bitmap.set inode_id false
            superblock := some { sb with free_inodes_count := sb.free_inodes_count - 1 } })

/-- DiskManager.free_inode.  Out-of-range ids and double frees only print
and leave the state unchanged.  Reading `inode_bitmap[inode_id]` for an id
below `total_inodes` but beyond the bitmap's length would raise IndexError
in Python; that situation is unreachable in the well-formed states the
claims quantify over and is modelled as a no-op. -/
def free_inode (dm : DiskManager) (inode_id : Nat) : DiskManager :=
  match dm.superblock with
  | none => dm
  | some sb =>
    if inode_id ≥ sb.total_inodes then dm
    else
      match dm.inode_bitmap.get? inode_id with
      | some false =>
        { dm with
          inode_bitmap := dm.inode_bitmap.set inode_id true
          superblock := some { sb with free_inodes_count := sb.free_inodes_count + 1 }
          inode_table := dm.inode_table.set inode_id none }
      | _ => dm

/-- DiskManager.allocate_data_block. -/
def allocate_data_block (dm : DiskManager) : Option Nat × DiskManager :=
  match dm.superblock with
  | none => (none, dm)
  | some sb =>
    if sb.free_blocks_count = 0 then (none, dm)
    else
      match firstTrue dm.data_block_bitmap with
      | none => (none, dm)
      | some block_id =>
        (some block_id,
          { dm with
            data_block_bitmap := dm.data_block_bitmap.set block_id false
            superblock := some { sb with free_blocks_count := sb.free_blocks_count - 1 } })

/-- DiskManager.free_data_block.  Same conventions as `free_inode`; the
block's contents are not cleared. -/
def free_data_block (dm : DiskManager) (block_id : Nat) : DiskManager :=
  match dm.superblock with
  | none => dm
  | some sb =>
    if block_id ≥ sb.total_blocks then dm
    else
      match dm.data_block_bitmap.get? block_id with
      | some false =>
        { dm with
          data_block_bitmap := dm.data_block_bitmap.set block_id true
          superblock := some { sb with free_blocks_count := sb.free_blocks_count + 1 } }
      | _ => dm

/-- DiskManager.write_block for raw byte data: bounds-check the id, reject
data longer than a block, pad short data with zeros.  `none` models the
raised IndexError/ValueError. -/
def write_block (dm : DiskManager) (block_id : Nat) (data : List Nat) :
    Option DiskManager :=
  match dm.superblock with
  | none => none
  | some sb =>
    if block_id ≥ sb.total_blocks then none
    else if data.length > sb.block_size then none
    else some { dm with
      data_blocks := dm.data_blocks.set block_id
        (BlockData.bytes (data ++ List.replicate (sb.block_size - data.length) 0)) }

/-- DiskManager.read_block.  `none` models the raised IndexError (also for
the unreachable case of a data_blocks list shorter than total_blocks). -/
def read_block (dm : DiskManager) (block_id : Nat) : Option BlockData :=
  match dm.superblock with
  | none => none
  | some sb =>
    if block_id ≥ sb.total_blocks then none
    else dm.data_blocks.get? block_id

/-- DiskManager.get_inode. -/
def get_inode (dm : DiskManager) (inode_id : Nat) : Option Inode :=
  if ¬ dm.is_formatted then none
  else
    match dm.superblock with
    | none => none
    | some sb =>
      if inode_id ≥ sb.total_inodes then none
      else (dm.inode_table.get? inode_id).join

/-- The serialised byte length of `pickle.dumps` on a list of directory
items is library behaviour; every theorem below quantifies over this size
model.  `psize` stands for `len(pickle.dumps(items))`. -/
abbrev PSize := List DirItem → Nat

/-- Same for `pickle.dumps` of a list of ints (indirect block payloads). -/
abbrev PSizeN := List Nat → Nat

/-- `write_block(block_id, pickle.dumps(items))`: the bounds and size
checks of write_block applied to the pickled payload, storing the
structured value.  The zero padding that write_block appends is invisible
to `pickle.loads` (it ignores trailing bytes), so it is not represented. -/
def write_block_pickled (psize : PSize) (dm : DiskManager) (block_id : Nat)
    (items : List DirItem) : Option DiskManager :=
  match dm.superblock with
  | none => none
  | some sb =>
    if block_id ≥ sb.total_blocks then none
    else if psize items > sb.block_size then none
    else some { dm with data_blocks := dm.data_blocks.set block_id (BlockData.dirList items) }

/-- dir_ops._read_directory_entries.  Reads the first data block of a
directory and unpickles it.  A raw-bytes block (e.g. all zeros) makes
`pickle.loads` raise, which the source catches and turns into None; a
block holding a pickled int list would unpickle to a value on which every
caller immediately crashes, and is likewise modelled as None (it occurs in
no reachable state). -/
def read_directory_entries (dm : DiskManager) (dir_inode_id : Nat) :
    Option (List DirItem) :=
  match get_inode dm dir_inode_id with
  | none => none
  | some dir_inode =>
    if dir_inode.type ≠ FileType.DIRECTORY then none
    else
      match dir_inode.data_block_indices with
      | [] => some []
      | block_id :: _ =>
        match read_block dm block_id with
        | none => none
        | some (BlockData.dirList items) => some items
        | some _ => none

/-- dir_ops._write_directory_entries.  Serialises the list, rejects it if
it exceeds one block, writes it to the directory's first data block and
updates the directory inode's size (= number of entries) and times.  All
exceptions inside are caught and yield (False, unchanged state). -/
def write_directory_entries (psize : PSize) (dm : DiskManager)
    (dir_inode_id : Nat) (entries : List DirItem) (now : Nat) :
    Bool × DiskManager :=
  match get_inode dm dir_inode_id with
  | none => (false, dm)
  | some dir_inode =>
    if dir_inode.type ≠ FileType.DIRECTORY then (false, dm)
    else
      match dir_inode.data_block_indices with
      | [] => (false, dm)
      | block_id :: _ =>
        match dm.superblock with
        | none => (false, dm)
        | some sb =>
          if psize entries > sb.block_size then (false, dm)
          else
            match write_block_pickled psize dm block_id entries with
            | none => (false, dm)
            | some dm1 =>
              let dir_inode1 : Inode :=
                { dir_inode with
                  size := entries.length
                  mtime := now
                  atime := now
                  ctime := now }
              (true, { dm1 with inode_table := dm1.inode_table.set dir_inode_id (some dir_inode1) })

/-- Attribute access `item.name` on a directory item: a DirectoryEntry has
it, a dict raises AttributeError (`none`). -/
def DirItem.nameAttr : DirItem → Option String
  | DirItem.entry e => some e.name
  | DirItem.detail _ => none

/-- Scan a directory payload for the first DirectoryEntry named `nm`,
accessing `.name` on each element in order, exactly like the Python loops
`for entry in entries: if entry.name == nm`.  Outer `none` = the loop
crashed with AttributeError on a dict; `some none` = scanned all items,
no match; `some (some e)` = first match. -/
def findItemByName : List DirItem → String → Option (Option DirectoryEntry)
  | [], _ => some none
  | DirItem.entry e :: rest, nm =>
    if e.name = nm then some (some e) else findItemByName rest nm
  | DirItem.detail _ :: _, _ => none

/-- Python str.startswith("/").  (The library String functions are
well-founded recursions the kernel cannot evaluate, so the embedding uses
structural equivalents over the character list.) -/
def startsWithSlash (s : String) : Bool :=
  match s.data with
  | '/' :: _ => true
  | _ => false

/-- Python "'/' in name". -/
def containsSlash (s : String) : Bool := s.data.any (· = '/')

/-- Python str.split("/"), worker. -/
def splitSlashAux : List Char → List Char → List String
  | [], acc => [String.mk acc.reverse]
  | c :: cs, acc =>
    if c = '/' then String.mk acc.reverse :: splitSlashAux cs []
    else splitSlashAux cs (c :: acc)

/-- Python str.split("/"). -/
def splitSlash (s : String) : List String := splitSlashAux s.data []

/-- The component walk of dir_ops._resolve_path_to_inode_id.  `last` is
`components[-1]`: the source compares each component against the last one
by value, not by position.  A `none` result covers both the source's
`return None` paths and an AttributeError escaping the loop (a directory
payload holding dicts). -/
def resolveLoop (dm : DiskManager) (last : String) :
    List String → Nat → Option Nat
  | [], cur => some cur
  | component :: rest, cur =>
    match get_inode dm cur with
    | none => none
    | some cur_inode =>
      if cur_inode.type ≠ FileType.DIRECTORY then none
      else
        match read_directory_entries dm cur with
        | none => none
        | some entries =>
          if component = "." then resolveLoop dm last rest cur
          else if component = ".." then
            match findItemByName entries ".." with
            | none => none
            | some none => none
            | some (some e) => resolveLoop dm last rest e.inode_id
          else
            match findItemByName entries component with
            | none => none
            | some none => none
            | some (some e) =>
              match get_inode dm e.inode_id with
              | none => none
              | some target_inode =>
                if component ≠ last ∧ target_inode.type ≠ FileType.DIRECTORY then none
                else resolveLoop dm last rest e.inode_id

/-- dir_ops._resolve_path_to_inode_id. -/
def resolve_path_to_inode_id (dm : DiskManager)
    (current_dir_inode_id root_inode_id : Nat) (path : String) : Option Nat :=
  if path = "" then some current_dir_inode_id
  else
    let isAbs := startsWithSlash path
    let components := (splitSlash path).filter (· ≠ "")
    if isAbs ∧ components = [] then some root_inode_id
    else
      resolveLoop dm (components.getLastD "") components
        (if isAbs then root_inode_id else current_dir_inode_id)

/-- Python's `oct` builtin on a non-negative int, e.g. `oct(0o755) = "0o755"`. -/
def octString (n : Nat) : String :=
  "0o" ++ (Nat.toDigits 8 n).asString

/-- Name of a FileType value, as Python's `enum.name`. -/
def FileType.pyName : FileType → String
  | FileType.FILE => "FILE"
  | FileType.DIRECTORY => "DIRECTORY"
  | FileType.SYMBOLIC_LINK => "SYMBOLIC_LINK"

/-- The detail dict list_directory builds for an entry whose inode exists. -/
def detailOf (e : DirectoryEntry) (ino : Inode) : DetailEntry :=
  { name := e.name
    inode_id := e.inode_id
    typeName := ino.type.pyName
    size := ino.size
    permissions := octString ino.permissions
    mtime := ino.mtime
    link_count := ino.link_count
    owner_uid := some ino.owner_uid
    error := none }

/-- The detail dict list_directory builds for a dangling entry. -/
def detailDangling (e : DirectoryEntry) : DetailEntry :=
  { name := e.name
    inode_id := e.inode_id
    typeName := "UNKNOWN"
    size := 0
    permissions := "---"
    mtime := 0
    link_count := 0
    owner_uid := none
    error := some "Inode not found" }

/-- The per-entry loop of list_directory.  `none` = the loop crashed on a
dict item (AttributeError on `.name`). -/
def detailEntries (dm : DiskManager) : List DirItem → Option (List DetailEntry)
  | [] => some []
  | DirItem.detail _ :: _ => none
  | DirItem.entry e :: rest =>
    match detailEntries dm rest with
    | none => none
    | some ds =>
      match get_inode dm e.inode_id with
      | none => some (detailDangling e :: ds)
      | some ino => some (detailOf e ino :: ds)

/-- dir_ops.list_directory.  Result: outer `none` = an exception escaped
(the entry loop hit a dict); otherwise (success flag, detail list, state
with the directory's atime updated on success). -/
def list_directory (dm : DiskManager) (dir_inode_id : Nat) (now : Nat) :
    Option (Bool × Option (List DetailEntry) × DiskManager) :=
  match get_inode dm dir_inode_id with
  | none => some (false, none, dm)
  | some target_dir_inode =>
    if target_dir_inode.type ≠ FileType.DIRECTORY then some (false, none, dm)
    else
      match read_directory_entries dm dir_inode_id with
      | none => some (false, none, dm)
      | some entries =>
        match detailEntries dm entries with
        | none => none
        | some ds =>
          let dir_inode1 : Inode := { target_dir_inode with atime := now }
          some (true, some ds,
            { dm with inode_table := dm.inode_table.set dir_inode_id (some dir_inode1) })

/-- permissions_utils.check_permission.  `operation` is `some s` for a
string argument; dir_ops.rename_item actually passes the int
`Permissions.WRITE`, modelled as `none`, which matches none of the string
branches and so yields False for every non-root caller. -/
def check_permission (inode : Inode) (user_uid : Nat) (operation : Option String) : Bool :=
  if user_uid = 0 then true
  else if inode.owner_uid = user_uid then
    if operation = some "read" then inode.permissions &&& (0b100 <<< 6) ≠ 0
    else if operation = some "write" then inode.permissions &&& (0b010 <<< 6) ≠ 0
    else if operation = some "execute" then inode.permissions &&& (0b001 <<< 6) ≠ 0
    else if operation = some "delete" then inode.permissions &&& (0b010 <<< 6) ≠ 0
    else false
  else
    if operation = some "read" then inode.permissions &&& 0b100 ≠ 0
    else if operation = some "write" then inode.permissions &&& 0b010 ≠ 0
    else if operation = some "execute" then inode.permissions &&& 0b001 ≠ 0
    else if operation = some "delete" then inode.permissions &&& 0b010 ≠ 0
    else false

/-- file_ops._check_permissions (the variant used by the second
delete_file and by create_hard_link).  Note the fall-through: an owner
who fails the owner bits still passes if the matching other bit is set. -/
def check_permissions (inode : Inode) (uid : Nat) (operation : String) : Bool :=
  if uid = 0 then true
  else if inode.owner_uid = uid ∧ operation = "read" ∧ inode.permissions &&& 0o400 ≠ 0 then true
  else if inode.owner_uid = uid ∧ operation = "write" ∧ inode.permissions &&& 0o200 ≠ 0 then true
  else if inode.owner_uid = uid ∧ operation = "execute" ∧ inode.permissions &&& 0o100 ≠ 0 then true
  else if operation = "read" ∧ inode.permissions &&& 0o004 ≠ 0 then true
  else if operation = "write" ∧ inode.permissions &&& 0o002 ≠ 0 then true
  else if operation = "execute" ∧ inode.permissions &&& 0o001 ≠ 0 then true
  else false

/-- DiskManager.format_disk.  Result `none` models an exception escaping
(write_block raising IndexError/ValueError, which is unreachable because
the id was just allocated and the size just checked); `some (ok, dm)` is
the returned flag and the state, which on failure paths is the
half-initialised storage after rollback of the root allocations. -/
def format_disk (psize : PSize) (num_inodes num_blocks block_size : Nat)
    (now : Nat) : Option (Bool × DiskManager) :=
  let dm0 := initialize_storage num_inodes num_blocks block_size
  match allocate_inode dm0 with
  | (none, dm1) => some (false, dm1)
  | (some root_inode_id, dm1) =>
    match dm1.superblock with
    | none => some (false, dm1)
    | some sb =>
      let dm2 := { dm1 with superblock := some { sb with root_inode_id := some root_inode_id } }
      let root_inode0 := { mkInode root_inode_id FileType.DIRECTORY 0 0o755 now with link_count := (2 : Int) }
      match allocate_data_block dm2 with
      | (none, dm3) => some (false, free_inode dm3 root_inode_id)
      | (some root_data_block_id, dm3) =>
        let root_inode1 :=
          { root_inode0 with
            data_block_indices := [root_data_block_id]
            blocks_count := 1
            size := 2 }
        let dir_entries : List DirItem :=
          [DirItem.entry ⟨".", root_inode_id, false⟩,
           DirItem.entry ⟨"..", root_inode_id, false⟩]
        match dm3.superblock with
        | none => some (false, dm3)
        | some sb3 =>
          if psize dir_entries > sb3.block_size then
            some (false, free_inode (free_data_block dm3 root_data_block_id) root_inode_id)
          else
            match write_block_pickled psize dm3 root_data_block_id dir_entries with
            | none => none
            | some dm4 =>
              some (true,
                { dm4 with
                  inode_table := dm4.inode_table.set root_inode_id (some root_inode1)
                  is_formatted := true })

/-- file_ops.create_file.  Outer `none` models the AttributeError that
escapes when the duplicate-name scan hits a dict item. -/
def create_file (psize : PSize) (dm : DiskManager) (current_user_uid parent_inode_id : Nat)
    (new_file_name : String) (now : Nat) : Option (Bool × Option Nat × DiskManager) :=
  if new_file_name = "" ∨ containsSlash new_file_name = true ∨ new_file_name = "." ∨ new_file_name = ".." then
    some (false, none, dm)
  else if new_file_name.length > 255 then some (false, none, dm)
  else
    match get_inode dm parent_inode_id with
    | none => some (false, none, dm)
    | some parent_inode =>
      if parent_inode.type ≠ FileType.DIRECTORY then some (false, none, dm)
      else
        match read_directory_entries dm parent_inode_id with
        | none => some (false, none, dm)
        | some parent_entries =>
          match findItemByName parent_entries new_file_name with
          | none => none
          | some (some _) => some (false, none, dm)
          | some none =>
            match allocate_inode dm with
            | (none, dm1) => some (false, none, dm1)
            | (some new_inode_id, dm1) =>
              let new_file_inode := mkInode new_inode_id FileType.FILE current_user_uid 0o644 now
              let dm2 := { dm1 with inode_table := dm1.inode_table.set new_inode_id (some new_file_inode) }
              let parent_entries1 := parent_entries ++ [DirItem.entry ⟨new_file_name, new_inode_id, false⟩]
              match write_directory_entries psize dm2 parent_inode_id parent_entries1 now with
              | (false, dm3) =>
                let dm4 := { dm3 with inode_table := dm3.inode_table.set new_inode_id none }
                some (false, none, free_inode dm4 new_inode_id)
              | (true, dm3) =>
                match get_inode dm3 parent_inode_id with
                | none => some (true, some new_inode_id, dm3)
                | some parent1 =>
                  let parent2 := { parent1 with mtime := now, ctime := now, atime := now }
                  some (true, some new_inode_id,
                    { dm3 with inode_table := dm3.inode_table.set parent_inode_id (some parent2) })

/-- dir_ops.make_directory.  Outer `none` models the AttributeError that
escapes when the duplicate-name scan hits a dict item.  The in-place
mutations of the parent inode object (which lives in the inode table) are
modelled by re-fetching it from the table after each write. -/
def make_directory (psize : PSize) (dm : DiskManager) (current_user_uid parent_inode_id : Nat)
    (new_dir_name : String) (now : Nat) : Option (Bool × Option Nat × DiskManager) :=
  if new_dir_name = "" ∨ containsSlash new_dir_name = true ∨ new_dir_name = "." ∨ new_dir_name = ".." then
    some (false, none, dm)
  else if new_dir_name.length > 255 then some (false, none, dm)
  else
    match get_inode dm parent_inode_id with
    | none => some (false, none, dm)
    | some parent_inode =>
      if parent_inode.type ≠ FileType.DIRECTORY then some (false, none, dm)
      else
        match read_directory_entries dm parent_inode_id with
        | none => some (false, none, dm)
        | some parent_entries =>
          match findItemByName parent_entries new_dir_name with
          | none => none
          | some (some _) => some (false, none, dm)
          | some none =>
            match allocate_inode dm with
            | (none, dm1) => some (false, none, dm1)
            | (some new_inode_id, dm1) =>
              match allocate_data_block dm1 with
              | (none, dm2) => some (false, none, free_inode dm2 new_inode_id)
              | (some new_data_block_id, dm2) =>
                let new_dir_inode :=
                  { mkInode new_inode_id FileType.DIRECTORY current_user_uid 0o755 now with
                    data_block_indices := [new_data_block_id]
                    blocks_count := 1
                    link_count := (2 : Int) }
                let dm3 := { dm2 with inode_table := dm2.inode_table.set new_inode_id (some new_dir_inode) }
                let new_dir_entries : List DirItem :=
                  [DirItem.entry ⟨".", new_inode_id, false⟩,
                   DirItem.entry ⟨"..", parent_inode_id, false⟩]
                match write_directory_entries psize dm3 new_inode_id new_dir_entries now with
                | (false, dm4) =>
                  some (false, none, free_inode (free_data_block dm4 new_data_block_id) new_inode_id)
                | (true, dm4) =>
                  let parent_entries1 := parent_entries ++ [DirItem.entry ⟨new_dir_name, new_inode_id, false⟩]
                  match write_directory_entries psize dm4 parent_inode_id parent_entries1 now with
                  | (false, dm5) =>
                    some (false, none, free_inode (free_data_block dm5 new_data_block_id) new_inode_id)
                  | (true, dm5) =>
                    match get_inode dm5 parent_inode_id with
                    | none => some (true, some new_inode_id, dm5)
                    | some parent1 =>
                      let parent2 :=
                        { parent1 with
                          link_count := parent1.link_count + 1
                          mtime := now
                          ctime := now
                          atime := now }
                      some (true, some new_inode_id,
                        { dm5 with inode_table := dm5.inode_table.set parent_inode_id (some parent2) })

/-- Outcome of rename_item's single scan over the entries (it returns on
the first entry named new_name; otherwise it remembers the index, inode id
and entry of the last occurrence of old_name). -/
inductive RenameScanRes
  | conflict
  | done (found : Option (Nat × DirectoryEntry))
  deriving DecidableEq, Repr

/-- The scan loop of dir_ops.rename_item.  Outer `none` = AttributeError
on a dict item. -/
def renameScan (old_name new_name : String) :
    List DirItem → Nat → Option (Nat × DirectoryEntry) → Option RenameScanRes
  | [], _, acc => some (RenameScanRes.done acc)
  | DirItem.detail _ :: _, _, _ => none
  | DirItem.entry e :: rest, i, acc =>
    if e.name = new_name then some RenameScanRes.conflict
    else renameScan old_name new_name rest (i + 1)
      (if e.name = old_name then some (i, e) else acc)

/-- dir_ops.rename_item.  The permission check passes the int
Permissions.WRITE where a string is expected (see `check_permission`), so
it succeeds only for uid 0.  On write failure the source explicitly skips
restoring the entry name and just reports the error; since the modified
entry list was a freshly unpickled copy, the state is simply left as it
was. -/
def rename_item (psize : PSize) (dm : DiskManager) (user_uid parent_inode_id : Nat)
    (old_name new_name : String) (now : Nat) : Option (Bool × DiskManager) :=
  if new_name = "" ∨ containsSlash new_name = true ∨ new_name = "." ∨ new_name = ".." then
    some (false, dm)
  else if new_name.length > 255 then some (false, dm)
  else if old_name = new_name then some (true, dm)
  else
    match get_inode dm parent_inode_id with
    | none => some (false, dm)
    | some parent_inode =>
      if parent_inode.type ≠ FileType.DIRECTORY then some (false, dm)
      else if ¬ check_permission parent_inode user_uid none then some (false, dm)
      else
        match read_directory_entries dm parent_inode_id with
        | none => some (false, dm)
        | some entries =>
          match renameScan old_name new_name entries 0 none with
          | none => none
          | some RenameScanRes.conflict => some (false, dm)
          | some (RenameScanRes.done none) => some (false, dm)
          | some (RenameScanRes.done (some (old_entry_index, e))) =>
            let entries1 := entries.set old_entry_index (DirItem.entry { e with name := new_name })
            match write_directory_entries psize dm parent_inode_id entries1 now with
            | (false, dm1) => some (false, dm1)
            | (true, dm1) =>
              let dm2 :=
                match get_inode dm1 parent_inode_id with
                | none => dm1
                | some parent1 =>
                  let parent2 := { parent1 with mtime := now, ctime := now, atime := now }
                  { dm1 with inode_table := dm1.inode_table.set parent_inode_id (some parent2) }
              let dm3 :=
                match get_inode dm2 e.inode_id with
                | none => dm2
                | some target_inode =>
                  let target1 := { target_inode with ctime := now }
                  { dm2 with inode_table := dm2.inode_table.set e.inode_id (some target1) }
              some (true, dm3)

/-- User record from user_auth.py; only the uid is consulted by the
embedded operations. -/
structure User where
  uid : Nat
  deriving DecidableEq, Repr

/-- OpenFileEntry from datastructures.py.  The Python object also carries
`inode_ref`, a direct alias of the inode object stored in the inode table;
the embedding dereferences `inode_id` in the table instead, which is
faithful whenever the file has not been deleted while open (the states the
claims quantify over). -/
structure OpenFileEntry where
  inode_id : Nat
  mode : OpenMode
  offset : Nat
  deriving DecidableEq, Repr

/-- The slice of UserAuthenticator state the file operations touch: the
logged-in user and the fd → open-file-entry map. -/
structure Auth where
  current_user : Option User
  open_files : List (Nat × OpenFileEntry)
  deriving DecidableEq, Repr

/-- UserAuthenticator.get_oft_entry (dict lookup). -/
def Auth.get_oft_entry (auth : Auth) (fd : Nat) : Option OpenFileEntry :=
  (auth.open_files.find? (fun p => p.1 = fd)).map Prod.snd

/-- Setting `oft_entry.offset` (a mutation of the entry held in the fd
map). -/
def Auth.set_oft_offset (auth : Auth) (fd : Nat) (off : Nat) : Auth :=
  { auth with
    open_files := auth.open_files.map
      (fun p => if p.1 = fd then (p.1, { p.2 with offset := off }) else p) }

/-- The bytearray content of a block as the file read/write loops see it.
File data blocks always hold raw bytes in reachable states; for a pickled
block Python would expose the pickle byte string, which has no
representation here, so it is modelled as a zero block (the claims about
read/write carry the hypothesis that the file's blocks are raw). -/
def blockBytes (bs : Nat) : BlockData → List Nat
  | BlockData.bytes data => data
  | _ => List.replicate bs 0

/-- Result of the write loop of file_ops.write_file, tagged by the return
site.  `diskFull` carries the inode already updated with size = the offset
reached and mtime/atime/ctime = now, as the source does inside that
branch; `writeFail` carries size = offset reached but no time updates;
`internalErr` (unreadable block or non-contiguous logical index) leaves
the inode fields as they were. -/
inductive WriteLoopRes
  | success (dm : DiskManager) (ino : Inode) (off written : Nat)
  | diskFull (dm : DiskManager) (ino : Inode) (off written : Nat)
  | internalErr (dm : DiskManager) (ino : Inode) (off written : Nat)
  | writeFail (dm : DiskManager) (ino : Inode) (off written : Nat)
  deriving Repr

/-- The while loop of file_ops.write_file.  `off` is current_offset, `ptr`
is content_bytes_ptr, `written` is bytes_written_this_call.  The loop
advances at least one byte per iteration whenever block_size is positive,
so structural recursion on a fuel of `content.length` is exact; the
fuel-exhausted arm (first match arm with `ptr` still short) is
unreachable at every call site. -/
def writeLoop (bs now : Nat) (content : List Nat) :
    Nat → DiskManager → Inode → Nat → Nat → Nat → WriteLoopRes
  | 0, dm, ino, off, ptr, written =>
    if ptr < content.length then WriteLoopRes.internalErr dm ino off written
    else WriteLoopRes.success dm ino off written
  | fuel + 1, dm, ino, off, ptr, written =>
    if ptr < content.length then
      let offset_in_block := off % bs
      let k := min (content.length - ptr) (bs - offset_in_block)
      let chunk := (content.drop ptr).take k
      if hlt : off / bs < ino.data_block_indices.length then
        let physical_block_id := ino.data_block_indices.get ⟨off / bs, hlt⟩
        match read_block dm physical_block_id with
        | none => WriteLoopRes.internalErr dm ino off written
        | some bd =>
          let cur := blockBytes bs bd
          let cur1 := cur.take offset_in_block ++ chunk ++ cur.drop (offset_in_block + k)
          match write_block dm physical_block_id cur1 with
          | none => WriteLoopRes.writeFail dm { ino with size := off } off written
          | some dm1 => writeLoop bs now content fuel dm1 ino (off + k) (ptr + k) (written + k)
      else
        if off / bs ≠ ino.data_block_indices.length then
          WriteLoopRes.internalErr dm ino off written
        else
          match allocate_data_block dm with
          | (none, dm1) =>
            WriteLoopRes.diskFull dm1
              { ino with size := off, mtime := now, atime := now, ctime := now } off written
          | (some physical_block_id, dm1) =>
            let ino1 :=
              { ino with
                data_block_indices := ino.data_block_indices ++ [physical_block_id]
                blocks_count := ino.blocks_count + 1 }
            let cur := List.replicate bs 0
            let cur1 := cur.take offset_in_block ++ chunk ++ cur.drop (offset_in_block + k)
            match write_block dm1 physical_block_id cur1 with
            | none => WriteLoopRes.writeFail dm1 { ino1 with size := off } off written
            | some dm2 => writeLoop bs now content fuel dm2 ino1 (off + k) (ptr + k) (written + k)
    else WriteLoopRes.success dm ino off written

/-- Return-site tags standing for write_file's message strings. -/
inductive WriteMsg
  | noUser
  | badFd
  | notWritable
  | internalBad
  | diskFullMsg
  | writeBlockFail
  | okMsg
  deriving DecidableEq, Repr

/-- file_ops.write_file.  `content_bytes` is `content_str.encode("utf-8")`
(the encoding itself cannot fail for the str values the callers pass).
Result: outer `none` models an uncaught exception (missing superblock,
stale inode reference, or block_size 0, i.e. ZeroDivisionError); otherwise
(success flag, message tag, bytes_written, state, auth). -/
def write_file (dm : DiskManager) (auth : Auth) (fd : Nat)
    (content_bytes : List Nat) (now : Nat) :
    Option (Bool × WriteMsg × Option Nat × DiskManager × Auth) :=
  match auth.current_user with
  | none => some (false, WriteMsg.noUser, none, dm, auth)
  | some _ =>
    match auth.get_oft_entry fd with
    | none => some (false, WriteMsg.badFd, none, dm, auth)
    | some oft_entry =>
      if oft_entry.mode ∉ [OpenMode.WRITE, OpenMode.APPEND, OpenMode.READ_WRITE] then
        some (false, WriteMsg.notWritable, none, dm, auth)
      else
        match (dm.inode_table.get? oft_entry.inode_id).join with
        | none => none
        | some file_inode =>
          match dm.superblock with
          | none => none
          | some sb =>
            if sb.block_size = 0 then none
            else
              let current_offset := oft_entry.offset
              match writeLoop sb.block_size now content_bytes content_bytes.length
                  dm file_inode current_offset 0 0 with
              | WriteLoopRes.internalErr dm1 ino1 _ written =>
                some (false, WriteMsg.internalBad, some written,
                  { dm1 with inode_table := dm1.inode_table.set oft_entry.inode_id (some ino1) },
                  auth)
              | WriteLoopRes.diskFull dm1 ino1 off1 written =>
                some (false, WriteMsg.diskFullMsg, some written,
                  { dm1 with inode_table := dm1.inode_table.set oft_entry.inode_id (some ino1) },
                  auth.set_oft_offset fd off1)
              | WriteLoopRes.writeFail dm1 ino1 off1 written =>
                some (false, WriteMsg.writeBlockFail, some written,
                  { dm1 with inode_table := dm1.inode_table.set oft_entry.inode_id (some ino1) },
                  auth.set_oft_offset fd off1)
              | WriteLoopRes.success dm1 ino1 off1 written =>
                let new_file_size := off1
                let old_num_blocks_allocated := ino1.blocks_count
                let required_num_blocks :=
                  if new_file_size > 0 then (new_file_size + sb.block_size - 1) / sb.block_size else 0
                let freed :=
                  if required_num_blocks < old_num_blocks_allocated then
                    let blocks_to_free := ino1.data_block_indices.drop required_num_blocks
                    (blocks_to_free.foldl free_data_block dm1,
                     { ino1 with data_block_indices := ino1.data_block_indices.take required_num_blocks })
                  else (dm1, ino1)
                let ino3 :=
                  { freed.2 with
                    blocks_count := required_num_blocks
                    size := new_file_size
                    mtime := now
                    atime := now
                    ctime := now }
                some (true, WriteMsg.okMsg, some written,
                  { freed.1 with inode_table := freed.1.inode_table.set oft_entry.inode_id (some ino3) },
                  auth.set_oft_offset fd new_file_size)

/-- The while loop of file_ops.read_file.  Accumulates the chunk list;
returns `none` on an unreadable block (the IndexError return site), and
otherwise the chunks with the final temp_offset.  The `break` on a logical
index beyond the allocated blocks returns what was gathered so far.  The
loop gathers at least one byte per iteration whenever block_size is
positive, so structural recursion on a fuel of `want` is exact; the
fuel-exhausted arm is unreachable at the call site. -/
def readLoop (bs : Nat) (dm : DiskManager) (ino : Inode) (want : Nat) :
    Nat → Nat → Nat → List (List Nat) → Option (List (List Nat) × Nat)
  | 0, temp_offset, got, acc =>
    if got < want then none else some (acc, temp_offset)
  | fuel + 1, temp_offset, got, acc =>
    if got < want then
      if hlt : temp_offset / bs < ino.data_block_indices.length then
        match read_block dm (ino.data_block_indices.get ⟨temp_offset / bs, hlt⟩) with
        | none => none
        | some bd =>
          let offset_in_block := temp_offset % bs
          let take_n := min (bs - offset_in_block) (want - got)
          let chunk := ((blockBytes bs bd).drop offset_in_block).take take_n
          readLoop bs dm ino want fuel (temp_offset + take_n) (got + take_n) (acc ++ [chunk])
      else some (acc, temp_offset)
    else some (acc, temp_offset)

/-- Return-site tags standing for read_file's message strings. -/
inductive ReadMsg
  | noUser
  | badFd
  | notReadable
  | negativeCount
  | zeroRequested
  | eofMsg
  | internalBad
  | okMsg
  deriving DecidableEq, Repr

/-- file_ops.read_file.  `num_bytes_to_read` is an Int as in Python (the
negative check is a real branch).  Outer `none` models an uncaught
exception (stale inode reference, missing superblock, block_size 0). -/
def read_file (dm : DiskManager) (auth : Auth) (fd : Nat)
    (num_bytes_to_read : Int) (now : Nat) :
    Option (Bool × ReadMsg × Option (List Nat) × DiskManager × Auth) :=
  match auth.current_user with
  | none => some (false, ReadMsg.noUser, none, dm, auth)
  | some _ =>
    match auth.get_oft_entry fd with
    | none => some (false, ReadMsg.badFd, none, dm, auth)
    | some oft_entry =>
      if oft_entry.mode ∉ [OpenMode.READ, OpenMode.READ_WRITE] then
        some (false, ReadMsg.notReadable, none, dm, auth)
      else if num_bytes_to_read < 0 then
        some (false, ReadMsg.negativeCount, none, dm, auth)
      else if num_bytes_to_read = 0 then
        some (true, ReadMsg.zeroRequested, some [], dm, auth)
      else
        match (dm.inode_table.get? oft_entry.inode_id).join with
        | none => none
        | some file_inode =>
          match dm.superblock with
          | none => none
          | some sb =>
            let current_offset := oft_entry.offset
            let file_size := file_inode.size
            if current_offset ≥ file_size then
              some (true, ReadMsg.eofMsg, some [], dm, auth)
            else
              let bytes_can_actually_read :=
                min num_bytes_to_read.toNat (file_size - current_offset)
              if bytes_can_actually_read = 0 then
                some (true, ReadMsg.eofMsg, some [], dm, auth)
              else if sb.block_size = 0 then none
              else
                match readLoop sb.block_size dm file_inode bytes_can_actually_read
                    bytes_can_actually_read current_offset 0 [] with
                | none => some (false, ReadMsg.internalBad, none, dm, auth)
                | some (chunks, temp_offset) =>
                  let final_read_data := chunks.flatten
                  let file_inode1 := { file_inode with atime := now }
                  let dm1 :=
                    { dm with inode_table := dm.inode_table.set oft_entry.inode_id (some file_inode1) }
                  some (true, ReadMsg.okMsg, some final_read_data, dm1,
                    auth.set_oft_offset fd temp_offset)

/-- Return-site tags for the second (module-level effective)
file_ops.create_hard_link. -/
inductive LinkMsg
  | noTargetInode
  | notAFile
  | badParent
  | permDenied
  | listFail
  | nameExists
  | ctorRaise
  | noBlockForDir
  | writeDirFail
  | okMsg
  deriving DecidableEq, Repr

/-- file_ops.create_hard_link (the second, and therefore effective,
definition in the module).  It reads the parent's entries through
list_directory, so it obtains detail dicts, appends the one real
DirectoryEntry for the link, and pickles that mixed list back into the
parent's first data block.  Every exception inside is caught by one of the
try blocks, so the result is always `some`. -/
def create_hard_link (psize : PSize) (dm : DiskManager)
    (uid parent_inode_id : Nat) (link_name : String) (target_inode_id : Nat)
    (now : Nat) : Bool × LinkMsg × Option Nat × DiskManager :=
  match get_inode dm target_inode_id with
  | none => (false, LinkMsg.noTargetInode, none, dm)
  | some target_inode =>
    if target_inode.type ≠ FileType.FILE then (false, LinkMsg.notAFile, none, dm)
    else
      match get_inode dm parent_inode_id with
      | none => (false, LinkMsg.badParent, none, dm)
      | some parent_inode0 =>
        if parent_inode0.type ≠ FileType.DIRECTORY then (false, LinkMsg.badParent, none, dm)
        else if ¬ check_permissions parent_inode0 uid "write" then
          (false, LinkMsg.permDenied, none, dm)
        else
          match list_directory dm parent_inode_id now with
          | none => (false, LinkMsg.listFail, none, dm)
          | some (false, _, dm1) => (false, LinkMsg.listFail, none, dm1)
          | some (true, none, dm1) => (false, LinkMsg.listFail, none, dm1)
          | some (true, some entries, dm1) =>
            if entries.any (fun d => d.name = link_name) then
              (false, LinkMsg.nameExists, none, dm1)
            else if containsSlash link_name = true ∨ link_name.length > 255 then
              (false, LinkMsg.ctorRaise, none, dm1)
            else
              let new_entry : DirectoryEntry := ⟨link_name, target_inode_id, true⟩
              match list_directory dm1 parent_inode_id now with
              | none => (false, LinkMsg.listFail, none, dm1)
              | some (false, _, dm2) => (false, LinkMsg.listFail, none, dm2)
              | some (true, none, dm2) => (false, LinkMsg.listFail, none, dm2)
              | some (true, some existing_entries, dm2) =>
                let items := existing_entries.map DirItem.detail ++ [DirItem.entry new_entry]
                match get_inode dm2 parent_inode_id with
                | none => (false, LinkMsg.badParent, none, dm2)
                | some parent_inode =>
                  match dm2.superblock with
                  | none => (false, LinkMsg.writeDirFail, none, dm2)
                  | some sb =>
                    let step :=
                      if psize items > sb.block_size then
                        match allocate_data_block dm2 with
                        | (none, _dm3) => none
                        | (some new_block_id, dm3) =>
                          let parent1 :=
                            { parent_inode with
                              data_block_indices := parent_inode.data_block_indices ++ [new_block_id]
                              blocks_count := parent_inode.blocks_count + 1 }
                          some ({ dm3 with inode_table := dm3.inode_table.set parent_inode_id (some parent1) },
                            parent1)
                      else some (dm2, parent_inode)
                    match step with
                    | none => (false, LinkMsg.noBlockForDir, none, dm2)
                    | some (dm3, parent1) =>
                      match parent1.data_block_indices with
                      | [] => (false, LinkMsg.writeDirFail, none, dm3)
                      | first_block :: _ =>
                        match write_block_pickled psize dm3 first_block items with
                        | none => (false, LinkMsg.writeDirFail, none, dm3)
                        | some dm4 =>
                          let parent2 :=
                            { parent1 with size := items.length, mtime := now }
                          let dm5 :=
                            { dm4 with inode_table := dm4.inode_table.set parent_inode_id (some parent2) }
                          let target1 :=
                            { target_inode with
                              link_count := target_inode.link_count + 1
                              ctime := now }
                          let dm6 :=
                            { dm5 with inode_table := dm5.inode_table.set target_inode_id (some target1) }
                          (true, LinkMsg.okMsg, some target_inode_id, dm6)

/-- Return-site tags for the second (module-level effective)
file_ops.delete_file. -/
inductive DeleteMsg
  | badParent
  | permDeniedDir
  | listFail
  | notFound
  | inodeMissing
  | permDeniedFile
  | updateDirFail
  | okLastLink
  | okHardLink
  deriving DecidableEq, Repr

/-- file_ops.delete_file (the second, and therefore effective, definition
in the module: the hard-link-aware unlink).  Like create_hard_link it goes
through list_directory, so the entry list it writes back into the parent's
first data block is a list of detail dicts.  When the link count reaches 0
it frees the direct blocks, then the indirect and double-indirect meta
blocks themselves (not the data blocks they reference), then the inode. -/
def delete_file (psize : PSize) (dm : DiskManager) (uid parent_inode_id : Nat)
    (file_name : String) (now : Nat) : Bool × DeleteMsg × DiskManager :=
  match get_inode dm parent_inode_id with
  | none => (false, DeleteMsg.badParent, dm)
  | some parent_inode =>
    if parent_inode.type ≠ FileType.DIRECTORY then (false, DeleteMsg.badParent, dm)
    else if ¬ check_permissions parent_inode uid "write" then
      (false, DeleteMsg.permDeniedDir, dm)
    else
      match list_directory dm parent_inode_id now with
      | none => (false, DeleteMsg.listFail, dm)
      | some (false, _, dm1) => (false, DeleteMsg.listFail, dm1)
      | some (true, none, dm1) => (false, DeleteMsg.listFail, dm1)
      | some (true, some entries, dm1) =>
        match entries.findIdx? (fun d => d.name = file_name) with
        | none => (false, DeleteMsg.notFound, dm1)
        | some target_index =>
          match entries.get? target_index with
          | none => (false, DeleteMsg.notFound, dm1)
          | some target_entry =>
            let target_inode_id := target_entry.inode_id
            match get_inode dm1 target_inode_id with
            | none => (false, DeleteMsg.inodeMissing, dm1)
            | some target_inode =>
              if ¬ check_permissions target_inode uid "write" then
                (false, DeleteMsg.permDeniedFile, dm1)
              else
                let entries1 := entries.eraseIdx target_index
                match get_inode dm1 parent_inode_id with
                | none => (false, DeleteMsg.updateDirFail, dm1)
                | some parent_inode1 =>
                  match parent_inode1.data_block_indices with
                  | [] => (false, DeleteMsg.updateDirFail, dm1)
                  | first_block :: _ =>
                    match write_block_pickled psize dm1 first_block (entries1.map DirItem.detail) with
                    | none => (false, DeleteMsg.updateDirFail, dm1)
                    | some dm2 =>
                      let parent2 := { parent_inode1 with size := entries1.length, mtime := now }
                      let dm3 :=
                        { dm2 with inode_table := dm2.inode_table.set parent_inode_id (some parent2) }
                      let target1 :=
                        { target_inode with
                          link_count := target_inode.link_count - 1
                          ctime := now }
                      if target1.link_count = (0 : Int) then
                        let dm4 := target1.data_block_indices.foldl free_data_block dm3
                        let dm5 := target1.indirect_block_indices.foldl free_data_block dm4
                        let dm6 := target1.double_indirect_block_indices.foldl free_data_block dm5
                        (true, DeleteMsg.okLastLink, free_inode dm6 target_inode_id)
                      else
                        (true, DeleteMsg.okHardLink,
                          { dm3 with inode_table := dm3.inode_table.set target_inode_id (some target1) })

/-- UTF-8 encoding of one character. -/
def charUTF8 (c : Char) : List Nat :=
  let n := c.toNat
  if n < 0x80 then [n]
  else if n < 0x800 then [0xC0 ||| (n >>> 6), 0x80 ||| (n &&& 0x3F)]
  else if n < 0x10000 then
    [0xE0 ||| (n >>> 12), 0x80 ||| ((n >>> 6) &&& 0x3F), 0x80 ||| (n &&& 0x3F)]
  else
    [0xF0 ||| (n >>> 18), 0x80 ||| ((n >>> 12) &&& 0x3F),
     0x80 ||| ((n >>> 6) &&& 0x3F), 0x80 ||| (n &&& 0x3F)]

/-- UTF-8 bytes of a string, as `s.encode("utf-8")`. -/
def strBytes (s : String) : List Nat := (s.data.map charUTF8).flatten

/-- file_ops.create_symbolic_link.  Outer `none` models an uncaught
exception: the duplicate scan hitting a dict item, the DirectoryEntry
constructor raising on a name longer than 255, or write_block raising on
a target path longer than one block. -/
def create_symbolic_link (psize : PSize) (dm : DiskManager)
    (current_user_uid parent_inode_id : Nat) (link_name target_path : String)
    (now : Nat) : Option (Bool × Option Nat × DiskManager) :=
  if link_name = "" ∨ containsSlash link_name = true ∨ link_name = "." ∨ link_name = ".." then
    some (false, none, dm)
  else
    match read_directory_entries dm parent_inode_id with
    | none => some (false, none, dm)
    | some parent_entries =>
      match findItemByName parent_entries link_name with
      | none => none
      | some (some _) => some (false, none, dm)
      | some none =>
        match allocate_inode dm with
        | (none, dm1) => some (false, none, dm1)
        | (some new_inode_id, dm1) =>
          let link_inode0 := mkInode new_inode_id FileType.SYMBOLIC_LINK current_user_uid 0o777 now
          let target_path_bytes := strBytes target_path
          let link_inode1 := { link_inode0 with size := target_path_bytes.length }
          let blockStep :=
            if link_inode1.size > 0 then
              match allocate_data_block dm1 with
              | (none, dm2) => some (none, dm2)
              | (some block_id, dm2) =>
                match write_block dm2 block_id target_path_bytes with
                | none => none
                | some dm3 =>
                  some (some ({ link_inode1 with
                    data_block_indices := [block_id]
                    blocks_count := 1 }, block_id), dm3)
            else some (some (link_inode1, 0), dm1)
          match blockStep with
          | none => none
          | some (none, dm2) => some (false, none, free_inode dm2 new_inode_id)
          | some (some (link_inode2, _), dm2) =>
            let dm3 := { dm2 with inode_table := dm2.inode_table.set new_inode_id (some link_inode2) }
            if link_name.length > 255 then none
            else
              let parent_entries1 := parent_entries ++ [DirItem.entry ⟨link_name, new_inode_id, false⟩]
              match write_directory_entries psize dm3 parent_inode_id parent_entries1 now with
              | (false, dm4) =>
                let dm5 :=
                  match link_inode2.data_block_indices with
                  | [] => dm4
                  | b :: _ => free_data_block dm4 b
                some (false, none, free_inode dm5 new_inode_id)
              | (true, dm4) =>
                match get_inode dm4 parent_inode_id with
                | none => some (true, some new_inode_id, dm4)
                | some parent1 =>
                  let parent2 := { parent1 with mtime := now, ctime := now }
                  some (true, some new_inode_id,
                    { dm4 with inode_table := dm4.inode_table.set parent_inode_id (some parent2) })

/-- DiskManager.read_indirect_block: unpickle a list of block ids; any
failure (raw bytes, unreadable id) is caught and yields [].  A block
holding a pickled entry list would unpickle to non-ints, which no
reachable state produces; it is modelled as []. -/
def read_indirect_block (dm : DiskManager) (block_id : Nat) : List Nat :=
  match read_block dm block_id with
  | some (BlockData.natList xs) => xs
  | _ => []

/-- DiskManager.write_indirect_block.  The bool result is ignored by the
only caller. -/
def write_indirect_block (psizeN : PSizeN) (dm : DiskManager) (block_id : Nat)
    (block_indices : List Nat) : Bool × DiskManager :=
  match dm.superblock with
  | none => (false, dm)
  | some sb =>
    if block_id ≥ sb.total_blocks then (false, dm)
    else if psizeN block_indices > sb.block_size then (false, dm)
    else (true, { dm with data_blocks := dm.data_blocks.set block_id (BlockData.natList block_indices) })

/-- DiskManager.get_file_block_indices: the flat ordered block map
(direct, then each single indirect payload, then each payload reachable
through the double indirect blocks). -/
def get_file_block_indices (dm : DiskManager) (ino : Inode) : List Nat :=
  ino.data_block_indices
    ++ (ino.indirect_block_indices.map (read_indirect_block dm)).flatten
    ++ ((ino.double_indirect_block_indices.map (read_indirect_block dm)).flatten.map
        (read_indirect_block dm)).flatten

/-- The direct-slot phase of DiskManager.allocate_file_blocks: allocate n
blocks one at a time into data_block_indices, stopping with False on
exhaustion (allocations made so far are kept). -/
def allocateDirectLoop (dm : DiskManager) (ino : Inode) :
    Nat → Bool × DiskManager × Inode
  | 0 => (true, dm, ino)
  | n + 1 =>
    match allocate_data_block dm with
    | (none, dm1) => (false, dm1, ino)
    | (some block_id, dm1) =>
      allocateDirectLoop dm1
        { ino with
          data_block_indices := ino.data_block_indices ++ [block_id]
          blocks_count := ino.blocks_count + 1 } n

/-- The while loop of DiskManager.allocate_file_blocks: each round makes
sure the last single indirect block has room (allocating a new indirect
block when the list is empty or the last one holds at least
blocks_per_indirect ids), allocates one data block, appends its id to the
last indirect payload and writes it back (ignoring the write result). -/
def allocateIndirectLoop (psizeN : PSizeN) (blocks_per_indirect : Nat) :
    Nat → DiskManager → Inode → Bool × DiskManager × Inode
  | 0, dm, ino => (true, dm, ino)
  | n + 1, dm, ino =>
    let step :=
      if ino.indirect_block_indices.isEmpty
          || decide ((read_indirect_block dm (ino.indirect_block_indices.getLastD 0)).length
              ≥ blocks_per_indirect) then
        match allocate_data_block dm with
        | (none, _) => none
        | (some b, dm1) =>
          some (dm1,
            { ino with
              indirect_block_indices := ino.indirect_block_indices ++ [b]
              blocks_count := ino.blocks_count + 1 })
      else some (dm, ino)
    match step with
    | none => (false, dm, ino)
    | some (dm1, ino1) =>
      let last_indirect := ino1.indirect_block_indices.getLastD 0
      let indices := read_indirect_block dm1 last_indirect
      match allocate_data_block dm1 with
      | (none, dm2) => (false, dm2, ino1)
      | (some block_id, dm2) =>
        let dm3 := (write_indirect_block psizeN dm2 last_indirect (indices ++ [block_id])).2
        allocateIndirectLoop psizeN blocks_per_indirect n dm3
          { ino1 with blocks_count := ino1.blocks_count + 1 }

/-- DiskManager.allocate_file_blocks.  The inode object is mutated in
place in the source; the updated inode is returned alongside the state.
A missing superblock makes the `blocks_per_indirect` computation raise,
which the blanket except turns into False (keeping the direct-phase
mutations, which the source also keeps because they were object
mutations). -/
def allocate_file_blocks (psizeN : PSizeN) (dm : DiskManager) (ino : Inode)
    (required_blocks : Nat) : Bool × DiskManager × Inode :=
  let current_blocks : Nat :=
    ino.data_block_indices.length
      + ((ino.indirect_block_indices.map (fun b => (read_indirect_block dm b).length)).sum)
      + (((ino.double_indirect_block_indices.map (read_indirect_block dm)).flatten.map
          (fun b => (read_indirect_block dm b).length)).sum)
  let needed_blocks : Int := (required_blocks : Int) - (current_blocks : Int)
  if needed_blocks ≤ 0 then (true, dm, ino)
  else
    let direct_blocks_needed : Int :=
      min needed_blocks ((12 : Int) - (ino.data_block_indices.length : Int))
    match allocateDirectLoop dm ino direct_blocks_needed.toNat with
    | (false, dm1, ino1) => (false, dm1, ino1)
    | (true, dm1, ino1) =>
      let needed1 : Int := needed_blocks - direct_blocks_needed
      if needed1 ≤ 0 then (true, dm1, ino1)
      else
        match dm1.superblock with
        | none => (false, dm1, ino1)
        | some sb =>
          let blocks_per_indirect := sb.block_size / 4
          allocateIndirectLoop psizeN blocks_per_indirect needed1.toNat dm1 ino1

/-- A pickle stream value: `pickle.dump` serialises the DiskManager object
graph into a byte stream from which `pickle.load` reconstructs an equal
object.  The byte-level format is library behaviour; what the repository
relies on is that the encoding is injective and decodable, which is
modelled by this structural value. -/
inductive PVal
  | pn (n : Nat)
  | pi (i : Int)
  | pb (b : Bool)
  | ps (s : String)
  | pnone
  | plist (xs : List PVal)

/-- Encode an optional value (pickle serialises None as-is). -/
def encOpt (f : α → PVal) : Option α → PVal
  | none => PVal.pnone
  | some a => PVal.plist [f a]

/-- Decode an optional value. -/
def decOpt (f : PVal → Option α) : PVal → Option (Option α)
  | PVal.pnone => some none
  | PVal.plist [v] => (f v).map some
  | _ => none

/-- Decode each element of a list. -/
def decListWith (f : PVal → Option α) : List PVal → Option (List α)
  | [] => some []
  | v :: vs =>
    match f v with
    | none => none
    | some a => (decListWith f vs).map (a :: ·)

/-- Encoders for every structure reachable from DiskManager. -/
def encFileType : FileType → PVal
  | FileType.FILE => PVal.pn 1
  | FileType.DIRECTORY => PVal.pn 2
  | FileType.SYMBOLIC_LINK => PVal.pn 3

def decFileType : PVal → Option FileType
  | PVal.pn 1 => some FileType.FILE
  | PVal.pn 2 => some FileType.DIRECTORY
  | PVal.pn 3 => some FileType.SYMBOLIC_LINK
  | _ => none

def encDirectoryEntry (e : DirectoryEntry) : PVal :=
  PVal.plist [PVal.ps e.name, PVal.pn e.inode_id, PVal.pb e.is_hardlink]

def decDirectoryEntry : PVal → Option DirectoryEntry
  | PVal.plist [PVal.ps name, PVal.pn inode_id, PVal.pb hl] => some ⟨name, inode_id, hl⟩
  | _ => none

def encDetailEntry (d : DetailEntry) : PVal :=
  PVal.plist [PVal.ps d.name, PVal.pn d.inode_id, PVal.ps d.typeName, PVal.pn d.size,
    PVal.ps d.permissions, PVal.pn d.mtime, PVal.pi d.link_count,
    encOpt PVal.pn d.owner_uid, encOpt PVal.ps d.error]

def decDetailEntry : PVal → Option DetailEntry
  | PVal.plist [PVal.ps name, PVal.pn inode_id, PVal.ps tn, PVal.pn size,
      PVal.ps perms, PVal.pn mtime, PVal.pi lc, ou, er] =>
    match decOpt (fun | PVal.pn n => some n | _ => none) ou,
        decOpt (fun | PVal.ps s => some s | _ => none) er with
    | some ouv, some erv => some ⟨name, inode_id, tn, size, perms, mtime, lc, ouv, erv⟩
    | _, _ => none
  | _ => none

def encDirItem : DirItem → PVal
  | DirItem.entry e => PVal.plist [PVal.pn 0, encDirectoryEntry e]
  | DirItem.detail d => PVal.plist [PVal.pn 1, encDetailEntry d]

def decDirItem : PVal → Option DirItem
  | PVal.plist [PVal.pn 0, v] => (decDirectoryEntry v).map DirItem.entry
  | PVal.plist [PVal.pn 1, v] => (decDetailEntry v).map DirItem.detail
  | _ => none

def encBlockData : BlockData → PVal
  | BlockData.bytes data => PVal.plist [PVal.pn 0, PVal.plist (data.map PVal.pn)]
  | BlockData.dirList items => PVal.plist [PVal.pn 1, PVal.plist (items.map encDirItem)]
  | BlockData.natList xs => PVal.plist [PVal.pn 2, PVal.plist (xs.map PVal.pn)]

def decNat : PVal → Option Nat
  | PVal.pn n => some n
  | _ => none

def decBlockData : PVal → Option BlockData
  | PVal.plist [PVal.pn 0, PVal.plist vs] => (decListWith decNat vs).map BlockData.bytes
  | PVal.plist [PVal.pn 1, PVal.plist vs] => (decListWith decDirItem vs).map BlockData.dirList
  | PVal.plist [PVal.pn 2, PVal.plist vs] => (decListWith decNat vs).map BlockData.natList
  | _ => none

def encInode (i : Inode) : PVal :=
  PVal.plist [PVal.pn i.id, encFileType i.type, PVal.pn i.size, PVal.pn i.blocks_count,
    PVal.plist (i.data_block_indices.map PVal.pn),
    PVal.plist (i.indirect_block_indices.map PVal.pn),
    PVal.plist (i.double_indirect_block_indices.map PVal.pn),
    PVal.pn i.owner_uid, PVal.pn i.group_id, PVal.pn i.permissions,
    PVal.pn i.atime, PVal.pn i.mtime, PVal.pn i.ctime, PVal.pi i.link_count,
    PVal.pb i.is_encrypted, PVal.pb i.is_compressed]

def decInode : PVal → Option Inode
  | PVal.plist [PVal.pn id, ty, PVal.pn size, PVal.pn bc, PVal.plist dbi, PVal.plist ibi,
      PVal.plist dibi, PVal.pn ou, PVal.pn gid, PVal.pn perms, PVal.pn atv, PVal.pn mt,
      PVal.pn ct, PVal.pi lc, PVal.pb enc, PVal.pb comp] =>
    match decFileType ty, decListWith decNat dbi, decListWith decNat ibi,
        decListWith decNat dibi with
    | some tyv, some dbiv, some ibiv, some dibiv =>
      some ⟨id, tyv, size, bc, dbiv, ibiv, dibiv, ou, gid, perms, atv, mt, ct, lc, enc, comp⟩
    | _, _, _, _ => none
  | _ => none

def encSuperblock (sb : Superblock) : PVal :=
  PVal.plist [PVal.pn sb.magic_number, PVal.pn sb.total_blocks, PVal.pn sb.total_inodes,
    PVal.pn sb.block_size, PVal.pi sb.free_blocks_count, PVal.pi sb.free_inodes_count,
    encOpt PVal.pn sb.root_inode_id]

def decSuperblock : PVal → Option Superblock
  | PVal.plist [PVal.pn magic, PVal.pn tb, PVal.pn ti, PVal.pn bs, PVal.pi fb, PVal.pi fi,
      root] =>
    (decOpt decNat root).map (fun r => ⟨magic, tb, ti, bs, fb, fi, r⟩)
  | _ => none

def encDM (dm : DiskManager) : PVal :=
  PVal.plist [encOpt encSuperblock dm.superblock,
    PVal.plist (dm.inode_bitmap.map PVal.pb),
    PVal.plist (dm.data_block_bitmap.map PVal.pb),
    PVal.plist (dm.inode_table.map (encOpt encInode)),
    PVal.plist (dm.data_blocks.map encBlockData),
    PVal.pb dm.is_formatted]

def decBool : PVal → Option Bool
  | PVal.pb b => some b
  | _ => none

def decDM : PVal → Option DiskManager
  | PVal.plist [sb, PVal.plist ib, PVal.plist dbb, PVal.plist it, PVal.plist db, PVal.pb fm] =>
    match decOpt decSuperblock sb, decListWith decBool ib, decListWith decBool dbb,
        decListWith (decOpt decInode) it, decListWith decBlockData db with
    | some sbv, some ibv, some dbbv, some itv, some dbv =>
      some ⟨sbv, ibv, dbbv, itv, dbv, fm⟩
    | _, _, _, _, _ => none
  | _ => none

/-- PersistenceManager.save_disk_image: pickles the whole DiskManager to
the image file and reports success (warnings for unformatted disks only
print).  The image is the pickle stream value. -/
def save_disk_image (dm : DiskManager) : Bool × PVal :=
  (true, encDM dm)

/-- PersistenceManager.load_disk_image.  `file = none` is a missing image
file; a stream that does not decode to a DiskManager is the
isinstance/unpickling failure; a loaded state with a superblock but
is_formatted = False is reconciled by setting is_formatted = True (the
converse inconsistency only warns). -/
def load_disk_image (file : Option PVal) : Option DiskManager :=
  match file with
  | none => none
  | some v =>
    match decDM v with
    | none => none
    | some dm =>
      if dm.superblock.isSome ∧ dm.is_formatted = false then
        some { dm with is_formatted := true }
      else some dm

/-! Concrete scenario states used by the counterexamples and witnesses.
They are built exclusively through the embedded operations, starting from
`format_disk`.  `psize0` is the serialised-size model in which every
directory payload fits in one block (which is what CPython's pickle yields
for these small payloads and block sizes of the scenarios, scaled down);
`pbig` makes every serialisation exceed the block, forcing the
write-failure paths. -/

/-- Size model: every pickled directory payload fits. -/
def psize0 : PSize := fun _ => 0

/-- Size model for pickled int lists: always fits. -/
def psizeN0 : PSizeN := fun _ => 0

/-- Size model: every pickled directory payload exceeds any block. -/
def pbig : PSize := fun _ => 1000000

/-- Formatted demo disk: 8 inodes, 8 blocks of 64 bytes, at time 100.
Root directory is inode 0 with data block 0. -/
def demoFmt : DiskManager :=
  match format_disk psize0 8 8 64 100 with
  | some (_, dm) => dm
  | none => default

/-- demoFmt plus an empty file "f" (inode 1) created in the root. -/
def demoF : DiskManager :=
  match create_file psize0 demoFmt 0 0 "f" 101 with
  | some (_, _, dm) => dm
  | none => default

/-- Result of create_hard_link(root, "g", inode 1) on demoF. -/
def demoHL : Bool × LinkMsg × Option Nat × DiskManager :=
  create_hard_link psize0 demoF 0 0 "g" 1 102

/-- The state after the hard link creation. -/
def demoHLdm : DiskManager := demoHL.2.2.2

/-- Result of delete_file(root, "f") on the two-link state. -/
def demoDel : Bool × DeleteMsg × DiskManager :=
  delete_file psize0 demoHLdm 0 0 "f" 103

/-- demoFmt plus a subdirectory "d" (inode 1, block 1). -/
def symA : DiskManager :=
  match make_directory psize0 demoFmt 0 0 "d" 101 with
  | some (_, _, dm) => dm
  | none => default

/-- symA plus an empty file "x" (inode 2) inside "d". -/
def symB : DiskManager :=
  match create_file psize0 symA 0 1 "x" 102 with
  | some (_, _, dm) => dm
  | none => default

/-- symB plus a symbolic link "s" -> "/d" (inode 3) in the root. -/
def symD : DiskManager :=
  match create_symbolic_link psize0 symB 0 0 "s" "/d" 103 with
  | some (_, _, dm) => dm
  | none => default

/-- Formatted tiny disk: 16 inodes, 16 blocks of 4 bytes. -/
def tinyFmt : DiskManager :=
  match format_disk psize0 16 16 4 100 with
  | some (_, dm) => dm
  | none => default

/-- tinyFmt plus an empty file "f" (inode 1). -/
def tinyF : DiskManager :=
  match create_file psize0 tinyFmt 0 0 "f" 101 with
  | some (_, _, dm) => dm
  | none => default

/-- A session with fd 0 open on inode 1 in WRITE mode at offset 0 —
exactly the open-file entry open_file('w') builds for a fresh file. -/
def tinyAuth : Auth := ⟨some ⟨0⟩, [(0, ⟨1, OpenMode.WRITE, 0⟩)]⟩

/-- Writing 52 'X' bytes (13 blocks of 4) through fd 0. -/
def tinyWrite : Option (Bool × WriteMsg × Option Nat × DiskManager × Auth) :=
  write_file tinyF tinyAuth 0 (List.replicate 52 88) 102

/-- Formatted minimal disk with a single data block (consumed by the
root directory): 2 inodes, 1 block of 16 bytes. -/
def fullFmt : DiskManager :=
  match format_disk psize0 2 1 16 100 with
  | some (_, dm) => dm
  | none => default

/-- mkdir on the block-exhausted disk: allocates inode 1, then fails to
allocate a data block and must roll back. -/
def fullMk : Option (Bool × Option Nat × DiskManager) :=
  make_directory psize0 fullFmt 0 0 "d" 101

/-- Formatted disk with 4 blocks of 4 bytes (block 0 goes to the root). -/
def c7Fmt : DiskManager :=
  match format_disk psize0 8 4 4 100 with
  | some (_, dm) => dm
  | none => default

/-- c7Fmt plus an empty file "f" (inode 1). -/
def c7F : DiskManager :=
  match create_file psize0 c7Fmt 0 0 "f" 101 with
  | some (_, _, dm) => dm
  | none => default

/-- Writing 20 bytes into the 3 remaining blocks: 12 bytes fit, then the
allocator is exhausted mid-write. -/
def c7Write : Option (Bool × WriteMsg × Option Nat × DiskManager × Auth) :=
  write_file c7F tinyAuth 0 (List.range 20) 102

/-- The rolled-back state returned by the failing mkdir on the full disk. -/
def fullMkDm : DiskManager :=
  match fullMk with
  | some (_, _, dm) => dm
  | none => default

/-- The state returned by the failing rename (oversized serialisation). -/
def renameFailDm : DiskManager :=
  match rename_item pbig demoF 0 0 "f" "h" 102 with
  | some (_, dm) => dm
  | none => default

/-- The 13-block file state produced by tinyWrite. -/
def tinyWriteDm : DiskManager :=
  match tinyWrite with
  | some (_, _, _, dm, _) => dm
  | none => default

/-- Overwriting the 52-byte file with 5 bytes at offset 0 (the editor's
save-and-truncate path). -/
def c3Write : Option (Bool × WriteMsg × Option Nat × DiskManager × Auth) :=
  write_file tinyWriteDm tinyAuth 0 [1, 2, 3, 4, 5] 103

/-- tinyF with the 6 bytes of "hello!" written into file "f". -/
def c4dm : DiskManager :=
  match write_file tinyF tinyAuth 0 [104, 101, 108, 108, 111, 33] 102 with
  | some (_, _, _, dm, _) => dm
  | none => default

/-- A session with fd 1 open on inode 1 in READ mode at offset 0. -/
def c4auth : Auth := ⟨some ⟨0⟩, [(1, ⟨1, OpenMode.READ, 0⟩)]⟩

/-- Reading 10 bytes from the 6-byte file. -/
def c4Read : Option (Bool × ReadMsg × Option (List Nat) × DiskManager × Auth) :=
  read_file c4dm c4auth 1 10 103

/-! Readback machinery used to state and prove the read/write claims. -/

/-- The byte list a block id denotes for the file loops (unreadable ids
read as a zero block, matching `blockBytes` on the unreachable cases). -/
def blockOf (dm : DiskManager) (bs : Nat) (b : Nat) : List Nat :=
  match read_block dm b with
  | some bd => blockBytes bs bd
  | none => List.replicate bs 0

/-- The flat byte content of a file given its ordered block list. -/
def fileContent (dm : DiskManager) (bs : Nat) (ids : List Nat) : List Nat :=
  (ids.map (blockOf dm bs)).flatten

/-- Decidable form of "block b holds raw bytes of a full block's length"
— true for every data block of a file in the states reachable through the
embedded operations. -/
def isRawBlock (dm : DiskManager) (bs : Nat) (b : Nat) : Bool :=
  match read_block dm b with
  | some (BlockData.bytes l) => l.length = bs
  | _ => false

/-- The fields of the superblock that no file operation changes. -/
def sbShape (dm : DiskManager) : Option (Nat × Nat × Nat × Nat × Option Nat) :=
  dm.superblock.map (fun s => (s.magic_number, s.total_blocks, s.total_inodes, s.block_size, s.root_inode_id))

/-- Invariant of the write loop relating the state, the file inode and the
running offset: the superblock shape is fixed, the bitmap and block store
have the advertised lengths, every data block of the file is in range, is
raw, is marked allocated, block ids are distinct, the offset lies within
the mapped bytes and blocks_count mirrors the direct list. -/
structure WInv (total bs : Nat) (dm : DiskManager) (ino : Inode) (off : Nat) : Prop where
  shape : ∃ mg ti rt, sbShape dm = some (mg, total, ti, bs, rt)
  hbmlen : dm.data_block_bitmap.length = total
  hdblen : dm.data_blocks.length = total
  hrange : ∀ b ∈ ino.data_block_indices, b < total
  hraw : ∀ b ∈ ino.data_block_indices, isRawBlock dm bs b = true
  halloc : ∀ b ∈ ino.data_block_indices, dm.data_block_bitmap.get? b = some false
  hnodup : ino.data_block_indices.Nodup
  hoff : off ≤ ino.data_block_indices.length * bs
  hbc : ino.blocks_count = ino.data_block_indices.length

/-- What one run of the write loop guarantees about its result, having
written `m` bytes: the offset and byte counter advanced by `m`, the block
map only grew at the tail, the invariant is preserved, the inode table and
inode bitmap are untouched, the file bytes before the starting offset are
unchanged, and the `m` bytes starting there now read back as the written
slice of the content. -/
structure WOut (total bs : Nat) (content : List Nat) (dm : DiskManager) (ino : Inode)
    (off ptr written : Nat) (dm' : DiskManager) (ino' : Inode)
    (off' written' m : Nat) : Prop where
  hoff' : off' = off + m
  hwr : written' = written + m
  hm : m ≤ content.length - ptr
  happ : ∃ app, ino'.data_block_indices = ino.data_block_indices ++ app ∧
    ino'.blocks_count = ino.blocks_count + app.length ∧
    (app = [] ∨ ino.data_block_indices.length * bs ≤ off')
  inv : WInv total bs dm' ino' off'
  htable : dm'.inode_table = dm.inode_table
  hibm : dm'.inode_bitmap = dm.inode_bitmap
  prefixEq : (fileContent dm' bs ino'.data_block_indices).take off
    = (fileContent dm bs ino.data_block_indices).take off
  written_slice : ((fileContent dm' bs ino'.data_block_indices).drop off).take m
    = (content.drop ptr).take m

/-- The block count write_file recomputes after a successful loop run:
`required_num_blocks` in the source. -/
def requiredBlocks (bs size : Nat) : Nat :=
  if size > 0 then (size + bs - 1) / bs else 0

/-- The post-state write_file's success path promises (C3): bytes_written
is the whole content, the fd offset advances to offset + len, and the
file inode has size = final offset, blocks_count = the recomputed
required block count, a direct map of exactly that many blocks, and —
whenever the required count shrank below the old map — the tail blocks
cut off the map read back as free in the block bitmap. -/
def C3Post (auth : Auth) (fd : Nat) (content : List Nat) (now : Nat)
    (oft : OpenFileEntry) (bs : Nat) (ino : Inode) (w : Nat) (dm' : DiskManager)
    (auth' : Auth) : Prop :=
  w = content.length ∧
  auth' = auth.set_oft_offset fd (oft.offset + content.length) ∧
  ∃ ino3,
    dm'.inode_table.get? oft.inode_id = some (some ino3) ∧
    ino3.size = oft.offset + content.length ∧
    ino3.mtime = now ∧ ino3.atime = now ∧ ino3.ctime = now ∧
    ino3.blocks_count = requiredBlocks bs (oft.offset + content.length) ∧
    ino3.data_block_indices.length = requiredBlocks bs (oft.offset + content.length) ∧
    (requiredBlocks bs (oft.offset + content.length) < ino.data_block_indices.length →
      ino3.data_block_indices
        = ino.data_block_indices.take (requiredBlocks bs (oft.offset + content.length)) ∧
      ∀ b ∈ ino.data_block_indices.drop (requiredBlocks bs (oft.offset + content.length)),
        dm'.data_block_bitmap.get? b = some true)

/-- The post-state write_file's disk-full path promises (C7): the call
reports the exact byte count written before the allocator failed, the fd
offset advances by it, the inode's size is the offset reached with all
three timestamps updated, and those bytes read back from the file as the
written prefix of the content. -/
def C7Post (auth : Auth) (fd : Nat) (content : List Nat) (now : Nat)
    (oft : OpenFileEntry) (bs : Nat) (w : Nat) (dm' : DiskManager)
    (auth' : Auth) : Prop :=
  w ≤ content.length ∧
  auth' = auth.set_oft_offset fd (oft.offset + w) ∧
  ∃ ino',
    dm'.inode_table.get? oft.inode_id = some (some ino') ∧
    ino'.size = oft.offset + w ∧
    ino'.mtime = now ∧ ino'.atime = now ∧ ino'.ctime = now ∧
    ((fileContent dm' bs ino'.data_block_indices).drop oft.offset).take w
      = content.take w

/-- What read_file guarantees (C4): n = 0 reads nothing and succeeds;
at or past EOF it succeeds with an empty result and no state change;
otherwise it returns exactly min(n, size - offset) bytes taken from the
file content at the current offset, advances the fd offset by that
amount, and touches only atime. -/
def C4Post (dm : DiskManager) (auth : Auth) (fd : Nat) (n : Int) (now : Nat)
    (oft : OpenFileEntry) (bs : Nat) (ino : Inode) : Prop :=
  (n = 0 → read_file dm auth fd n now
    = some (true, ReadMsg.zeroRequested, some [], dm, auth)) ∧
  (n ≠ 0 → ino.size ≤ oft.offset → read_file dm auth fd n now
    = some (true, ReadMsg.eofMsg, some [], dm, auth)) ∧
  (n ≠ 0 → oft.offset < ino.size →
    read_file dm auth fd n now
      = some (true, ReadMsg.okMsg,
          some (((fileContent dm bs ino.data_block_indices).drop oft.offset).take
            (min n.toNat (ino.size - oft.offset))),
          { dm with inode_table :=
              dm.inode_table.set oft.inode_id (some { ino with atime := now }) },
          auth.set_oft_offset fd (oft.offset + min n.toNat (ino.size - oft.offset))) ∧
    (((fileContent dm bs ino.data_block_indices).drop oft.offset).take
        (min n.toNat (ino.size - oft.offset))).length
      = min n.toNat (ino.size - oft.offset))

/-- The superblock of the 13-block-file state (witness shorthand). -/
def tinySb : Superblock :=
  match tinyWriteDm.superblock with
  | some sb => sb
  | none => mkSuperblock 0 0 0

/-- The file inode of the 13-block-file state (witness shorthand). -/
def tinyInoW : Inode :=
  match (tinyWriteDm.inode_table.get? 1).join with
  | some i => i
  | none => mkInode 0 FileType.FILE 0 0 0

/-- The state returned by the shrinking write (witness shorthand). -/
def c3Dm : DiskManager :=
  match c3Write with
  | some (_, _, _, dmv, _) => dmv
  | none => default

/-- The session returned by the shrinking write (witness shorthand). -/
def c3Auth : Auth :=
  match c3Write with
  | some (_, _, _, _, a) => a
  | none => ⟨none, []⟩

/-- The superblock of the 4-block disk with file "f" (witness shorthand). -/
def c7Sb : Superblock :=
  match c7F.superblock with
  | some sb => sb
  | none => mkSuperblock 0 0 0

/-- The file inode of c7F (witness shorthand). -/
def c7Ino : Inode :=
  match (c7F.inode_table.get? 1).join with
  | some i => i
  | none => mkInode 0 FileType.FILE 0 0 0

/-- The state returned by the disk-filling write (witness shorthand). -/
def c7Dm : DiskManager :=
  match c7Write with
  | some (_, _, _, dmv, _) => dmv
  | none => default

/-- The session returned by the disk-filling write (witness shorthand). -/
def c7Auth : Auth :=
  match c7Write with
  | some (_, _, _, _, a) => a
  | none => ⟨none, []⟩

/-- The superblock of the 6-byte-file read scenario (witness shorthand). -/
def c4Sb : Superblock :=
  match c4dm.superblock with
  | some sb => sb
  | none => mkSuperblock 0 0 0

/-- The file inode of the 6-byte-file read scenario (witness shorthand). -/
def c4Ino : Inode :=
  match (c4dm.inode_table.get? 1).join with
  | some i => i
  | none => mkInode 0 FileType.FILE 0 0 0

/-! Theorems.  Shared helper lemmas come first; the claim theorems are
marked with their claim ids. -/

theorem decListWith_map_enc {α : Type} (f : α → PVal) (g : PVal → Option α)
    (h : ∀ x, g (f x) = some x) (l : List α) :
    decListWith g (l.map f) = some l := by
  induction l with
  | nil => rfl
  | cons a t ih => simp [decListWith, h, ih]

theorem decOpt_encOpt {α : Type} (f : α → PVal) (g : PVal → Option α)
    (h : ∀ x, g (f x) = some x) (o : Option α) :
    decOpt g (encOpt f o) = some o := by
  cases o <;> simp [encOpt, decOpt, h]

theorem decNat_pn (n : Nat) : decNat (PVal.pn n) = some n := rfl

theorem decBool_pb (b : Bool) : decBool (PVal.pb b) = some b := rfl

theorem decFileType_enc (t : FileType) : decFileType (encFileType t) = some t := by
  cases t <;> rfl

theorem decDirectoryEntry_enc (e : DirectoryEntry) :
    decDirectoryEntry (encDirectoryEntry e) = some e := rfl

theorem decDetailEntry_enc (d : DetailEntry) :
    decDetailEntry (encDetailEntry d) = some d := by
  obtain ⟨n, i, t, s, p, m, l, ou, er⟩ := d
  cases ou <;> cases er <;> rfl

theorem decDirItem_enc (it : DirItem) : decDirItem (encDirItem it) = some it := by
  cases it with
  | entry e => simp [encDirItem, decDirItem, decDirectoryEntry_enc]
  | detail d => simp [encDirItem, decDirItem, decDetailEntry_enc]

theorem decBlockData_enc (bd : BlockData) : decBlockData (encBlockData bd) = some bd := by
  cases bd <;>
    simp [encBlockData, decBlockData, decListWith_map_enc PVal.pn decNat decNat_pn,
      decListWith_map_enc encDirItem decDirItem decDirItem_enc]

theorem decInode_enc (i : Inode) : decInode (encInode i) = some i := by
  obtain ⟨id, ty, size, bc, dbi, ibi, dibi, ou, gid, perms, a, m, c, lc, e1, e2⟩ := i
  simp [encInode, decInode, decFileType_enc,
    decListWith_map_enc PVal.pn decNat decNat_pn]

theorem decSuperblock_enc (sb : Superblock) :
    decSuperblock (encSuperblock sb) = some sb := by
  obtain ⟨mg, tb, ti, bs, fb, fi, rt⟩ := sb
  simp [encSuperblock, decSuperblock, decOpt_encOpt PVal.pn decNat decNat_pn]

theorem decDM_enc (dm : DiskManager) : decDM (encDM dm) = some dm := by
  obtain ⟨sb, ib, dbb, it, db, fm⟩ := dm
  simp [encDM, decDM,
    decOpt_encOpt encSuperblock decSuperblock decSuperblock_enc,
    decListWith_map_enc PVal.pb decBool decBool_pb,
    decListWith_map_enc (encOpt encInode) (decOpt decInode)
      (decOpt_encOpt encInode decInode decInode_enc),
    decListWith_map_enc encBlockData decBlockData decBlockData_enc]

/-- C9: Round-trip — for every disk-manager state reached after format
(and hence with is_formatted = True, which no later operation clears),
save_disk_image followed by load_disk_image yields exactly the saved
state: superblock, both bitmaps, inode table, block store and the
formatted flag are all preserved; in particular the load-time
reconciliation of the formatted flag does not fire. -/
theorem c9_save_load_roundtrip (dm : DiskManager) (h : dm.is_formatted = true) :
    load_disk_image (some (save_disk_image dm).2) = some dm := by
  simp [save_disk_image, load_disk_image, decDM_enc, h]

/-- C9 witness: the round-trip at the concrete formatted demo disk. -/
theorem c9_save_load_roundtrip_witness :
    load_disk_image (some (save_disk_image demoFmt).2) = some demoFmt :=
  c9_save_load_roundtrip demoFmt (by decide)

/-- C1 counterexample: the resolver does not expand symbolic links.  In
the concrete state symD, "s" is a symlink (inode 3) in the root whose
stored target reads back as "/d", and "/d/x" resolves to inode 2; the
claimed expansion would therefore make "/s/x" resolve to inode 2 (well
within the claimed depth bound of 40), but the code returns None.  The
terminal-position part behaves as claimed: "/s" resolves to inode 3, the
symlink's own inode. -/
theorem c1_counterexample :
    resolve_path_to_inode_id symD 0 0 "/s/x" = none ∧
    resolve_path_to_inode_id symD 0 0 "/d/x" = some 2 ∧
    resolve_path_to_inode_id symD 0 0 "/s" = some 3 ∧
    (get_inode symD 3).map (fun i => (i.type, i.size)) = some (FileType.SYMBOLIC_LINK, 2) ∧
    (read_block symD 2).map (fun bd => (blockBytes 64 bd).take 2) = some (strBytes "/d") := by
  exact ⟨by decide, by decide, by decide, by decide, by decide⟩

/-- C1 amended: path resolution never expands symbolic links and has no
depth counter.  A component that resolves to a SYMBOLIC_LINK makes the
walk fail (None) whenever the component differs from the path's last
component (the source compares by value), because non-final components
must be directories; when it is the last component of the walk it
resolves to the symlink's own inode id.  Resolution always terminates,
processing each component exactly once. -/
theorem c1_amended (dm : DiskManager) (last comp : String) (rest : List String)
    (cur : Nat) {cur_inode : Inode} (hcur : get_inode dm cur = some cur_inode)
    (hdir : cur_inode.type = FileType.DIRECTORY)
    {entries : List DirItem} (hent : read_directory_entries dm cur = some entries)
    (hdot : comp ≠ "." ∧ comp ≠ "..")
    {e : DirectoryEntry} (hfind : findItemByName entries comp = some (some e))
    {link_inode : Inode} (hlink : get_inode dm e.inode_id = some link_inode)
    (hsym : link_inode.type = FileType.SYMBOLIC_LINK) :
    (comp ≠ last → resolveLoop dm last (comp :: rest) cur = none) ∧
    (comp = last → rest = [] → resolveLoop dm last (comp :: rest) cur = some e.inode_id) := by
  constructor
  · intro hne
    simp only [resolveLoop, hcur, hent, hfind, hlink]
    simp [hdot.1, hdot.2, hne, hsym, hdir]
  · intro heq hrest
    subst heq hrest
    simp only [resolveLoop, hcur, hent, hfind, hlink]
    simp [hdot.1, hdot.2, hdir, resolveLoop]

/-- C1 witness for the amended theorem, at the concrete state symD: the
non-terminal use of "s" in "s"/"x" fails, and the terminal use resolves
to the symlink's inode 3. -/
theorem c1_amended_witness :
    resolveLoop symD "x" ["s", "x"] 0 = none ∧
    resolveLoop symD "s" ["s"] 0 = some 3 := by
  constructor
  · exact (c1_amended symD "x" "s" ["x"] 0 rfl (by decide) rfl
      ⟨by decide, by decide⟩ rfl rfl (by decide)).1 (by decide)
  · exact (c1_amended symD "s" "s" [] 0 rfl (by decide) rfl
      ⟨by decide, by decide⟩ rfl rfl (by decide)).2 rfl rfl

/-- C6: create_hard_link at the concrete two-link scenario.  The parts of
the claim the code implements do hold: the call succeeds, the target's
link_count becomes 2 and its ctime is bumped, and exactly one new entry
with is_hardlink = true pointing at inode 1 is appended.  But the call
rewrites all pre-existing entries of the parent as pickled detail dicts,
so subsequent lookups of both the old names and the new link fail instead
of succeeding: the claim is right about the intent and the code corrupts
the directory payload. -/
theorem c6_create_hard_link_corrupts_lookups :
    demoHL.1 = true ∧
    (get_inode demoHLdm 1).map (fun i => (i.link_count, i.ctime)) = some (2, 102) ∧
    (read_directory_entries demoHLdm 0).map List.getLast?
      = some (some (DirItem.entry ⟨"g", 1, true⟩)) ∧
    (read_directory_entries demoHLdm 0).map
      (fun items => items.countP (fun it => it matches DirItem.entry _)) = some 1 ∧
    resolve_path_to_inode_id demoHLdm 0 0 "/g" = none ∧
    resolve_path_to_inode_id demoHLdm 0 0 "/f" = none ∧
    resolve_path_to_inode_id demoF 0 0 "/f" = some 1 := by
  exact ⟨by decide, by decide, by decide, by decide, by decide, by decide, by decide⟩

/-- C2: delete_file at the concrete two-link scenario.  After
create_hard_link has made inode 1 reachable as both "f" and "g"
(link_count 2), the claim says delete_file(root, "f") removes that one
entry and decrements link_count to 1.  Instead the call fails outright —
the parent's entries are now pickled dicts, list_directory crashes on
them — and the state is returned unchanged, link_count still 2. -/
theorem c2_delete_file_fails_on_hard_links :
    demoHL.1 = true ∧
    (get_inode demoHLdm 1).map (fun i => i.link_count) = some 2 ∧
    demoDel.1 = false ∧
    demoDel.2.1 = DeleteMsg.listFail ∧
    demoDel.2.2 = demoHLdm ∧
    (get_inode demoDel.2.2 1).map (fun i => i.link_count) = some 2 := by
  exact ⟨by decide, by decide, by decide, by decide, by decide, by decide⟩

/-- C10 counterexample: the direct-block cap does not hold in reachable
states.  Starting from a freshly formatted disk (16 inodes, 16 blocks of
4 bytes), creating file "f" and writing 52 bytes through a fd that
open('w') would produce (inode 1, WRITE mode, offset 0) succeeds and
leaves the file inode with 13 entries in direct_block_indices — write_file
extends the direct list with no 12-slot cap and never touches indirect
blocks. -/
theorem c10_counterexample :
    tinyWrite.map (fun r => r.1) = some true ∧
    tinyWrite.bind (fun r => (get_inode r.2.2.2.1 1).map
      (fun i => (i.data_block_indices.length, i.indirect_block_indices.length)))
      = some (13, 0) ∧
    12 < 13 := by
  exact ⟨by decide, by decide, by decide⟩

theorem allocateDirectLoop_length (dm : DiskManager) (ino : Inode) (n : Nat) :
    ((allocateDirectLoop dm ino n).2.2).data_block_indices.length
      ≤ ino.data_block_indices.length + n := by
  induction n generalizing dm ino with
  | zero => simp [allocateDirectLoop]
  | succ k ih =>
    simp only [allocateDirectLoop]
    cases allocate_data_block dm with
    | mk ob dm1 =>
      cases ob with
      | none => simp
      | some b =>
        refine le_trans (ih dm1 _) ?_
        simp
        omega

theorem allocateIndirectLoop_direct (psizeN : PSizeN) (bpi n : Nat)
    (dm : DiskManager) (ino : Inode) :
    ((allocateIndirectLoop psizeN bpi n dm ino).2.2).data_block_indices
      = ino.data_block_indices := by
  induction n generalizing dm ino with
  | zero => rfl
  | succ k ih =>
    simp only [allocateIndirectLoop]
    split
    · rfl
    · rename_i dm1 ino1 heq
      have hdi : ino1.data_block_indices = ino.data_block_indices := by
        split at heq
        · split at heq
          · exact absurd heq (by simp)
          · simp only [Option.some.injEq, Prod.mk.injEq] at heq
            rw [← heq.2]
        · simp only [Option.some.injEq, Prod.mk.injEq] at heq
          rw [← heq.2]
      split
      · simpa using hdi
      · rw [ih]
        simpa using hdi

theorem allocateDirectLoop_result_le (dm : DiskManager) (ino : Inode) (K : Nat)
    (res : Bool × DiskManager × Inode) (heq : allocateDirectLoop dm ino K = res)
    (h : ino.data_block_indices.length + K ≤ 12) :
    res.2.2.data_block_indices.length ≤ 12 := by
  have hlen := allocateDirectLoop_length dm ino K
  rw [heq] at hlen
  omega

/-- C10 amended: it is allocate_file_blocks that consumes direct slots
first and caps them at 12 — starting from an inode with at most 12 direct
blocks it never pushes the direct list beyond 12, further growth going
into single indirect blocks — while write_file grows the direct list
without any cap, so the claimed invariant fails on write_file-reachable
states (see the counterexample). -/
theorem c10_amended (psizeN : PSizeN) (dm : DiskManager) (ino : Inode)
    (required_blocks : Nat) (h : ino.data_block_indices.length ≤ 12) :
    ((allocate_file_blocks psizeN dm ino required_blocks).2.2).data_block_indices.length
      ≤ 12 := by
  simp only [allocate_file_blocks]
  split
  · exact h
  · split
    · rename_i dm1 ino1 heq
      exact allocateDirectLoop_result_le dm ino _ _ heq (by omega)
    · rename_i dm1 ino1 heq
      have hino1 : ino1.data_block_indices.length ≤ 12 := by
        simpa using allocateDirectLoop_result_le dm ino _ _ heq (by omega)
      split
      · exact hino1
      · split
        · exact hino1
        · rw [allocateIndirectLoop_direct]
          exact hino1

theorem firstTrue_spec (l : List Bool) (i : Nat) (h : firstTrue l = some i) :
    i < l.length ∧ l.get? i = some true := by
  induction l generalizing i with
  | nil => simp [firstTrue] at h
  | cons b t ih =>
    by_cases hb : b
    · subst hb
      simp [firstTrue] at h
      subst h
      simp
    · simp [firstTrue, hb] at h
      obtain ⟨j, hj, rfl⟩ := h
      have := ih j hj
      simpa using this

theorem set_of_get?_eq {α : Type} (l : List α) (i : Nat) (a : α)
    (h : l.get? i = some a) : l.set i a = l := by
  induction l generalizing i with
  | nil => simp at h
  | cons x t ih =>
    cases i with
    | zero => simp at h; simp [h]
    | succ j => simpa using ih j (by simpa using h)

theorem allocate_inode_none (dm dm' : DiskManager)
    (h : allocate_inode dm = (none, dm')) : dm' = dm := by
  unfold allocate_inode at h
  split at h
  · injection h with ha hb
    exact hb.symm
  · split at h
    · injection h with ha hb
      exact hb.symm
    · split at h
      · injection h with ha hb
        exact hb.symm
      · injection h with ha hb
        injection ha

theorem allocate_data_block_none (dm dm' : DiskManager)
    (h : allocate_data_block dm = (none, dm')) : dm' = dm := by
  unfold allocate_data_block at h
  split at h
  · injection h with ha hb
    exact hb.symm
  · split at h
    · injection h with ha hb
      exact hb.symm
    · split at h
      · injection h with ha hb
        exact hb.symm
      · injection h with ha hb
        injection ha

theorem allocate_inode_some (dm dm' : DiskManager) (i : Nat) (sb : Superblock)
    (hsb : dm.superblock = some sb) (h : allocate_inode dm = (some i, dm')) :
    i < dm.inode_bitmap.length ∧ dm.inode_bitmap.get? i = some true ∧
      dm' = { dm with
        inode_bitmap := dm.inode_bitmap.set i false
        superblock := some { sb with free_inodes_count := sb.free_inodes_count - 1 } } := by
  unfold allocate_inode at h
  split at h
  · rename_i heq
    rw [hsb] at heq
    exact Option.noConfusion heq
  · rename_i sb2 heq
    rw [hsb] at heq
    injection heq with heq2
    subst heq2
    split at h
    · injection h with ha hb
      injection ha
    · split at h
      · injection h with ha hb
        injection ha
      · rename_i j2 hj
        injection h with ha hb
        injection ha with ha2
        subst ha2
        have hspec := firstTrue_spec _ _ hj
        exact ⟨hspec.1, hspec.2, hb.symm⟩

theorem allocate_data_block_some (dm dm' : DiskManager) (j : Nat) (sb : Superblock)
    (hsb : dm.superblock = some sb) (h : allocate_data_block dm = (some j, dm')) :
    j < dm.data_block_bitmap.length ∧ dm.data_block_bitmap.get? j = some true ∧
      dm' = { dm with
        data_block_bitmap := dm.data_block_bitmap.set j false
        superblock := some { sb with free_blocks_count := sb.free_blocks_count - 1 } } := by
  unfold allocate_data_block at h
  split at h
  · rename_i heq
    rw [hsb] at heq
    exact Option.noConfusion heq
  · rename_i sb2 heq
    rw [hsb] at heq
    injection heq with heq2
    subst heq2
    split at h
    · injection h with ha hb
      injection ha
    · split at h
      · injection h with ha hb
        injection ha
      · rename_i k2 hk
        injection h with ha hb
        injection ha with ha2
        subst ha2
        have hspec := firstTrue_spec _ _ hk
        exact ⟨hspec.1, hspec.2, hb.symm⟩

theorem write_block_pickled_frame (psize : PSize) (dm : DiskManager) (block_id : Nat)
    (items : List DirItem) (dm1 : DiskManager)
    (h : write_block_pickled psize dm block_id items = some dm1) :
    dm1.superblock = dm.superblock ∧ dm1.inode_bitmap = dm.inode_bitmap ∧
    dm1.data_block_bitmap = dm.data_block_bitmap ∧ dm1.inode_table = dm.inode_table := by
  unfold write_block_pickled at h
  split at h
  · exact Option.noConfusion h
  · split at h
    · exact Option.noConfusion h
    · split at h
      · exact Option.noConfusion h
      · injection h with h1
        subst h1
        exact ⟨rfl, rfl, rfl, rfl⟩

theorem write_directory_entries_fail (psize : PSize) (dm dm' : DiskManager)
    (dir_inode_id : Nat) (entries : List DirItem) (now : Nat)
    (h : write_directory_entries psize dm dir_inode_id entries now = (false, dm')) :
    dm' = dm := by
  unfold write_directory_entries at h
  split at h
  · injection h with ha hb
    exact hb.symm
  · split at h
    · injection h with ha hb
      exact hb.symm
    · split at h
      · injection h with ha hb
        exact hb.symm
      · split at h
        · injection h with ha hb
          exact hb.symm
        · split at h
          · injection h with ha hb
            exact hb.symm
          · split at h
            · injection h with ha hb
              exact hb.symm
            · injection h with ha hb
              exact Bool.noConfusion ha

theorem write_directory_entries_res_frame (psize : PSize) (dm : DiskManager)
    (dir_inode_id : Nat) (entries : List DirItem) (now : Nat) (b : Bool)
    (dm1 : DiskManager)
    (h : write_directory_entries psize dm dir_inode_id entries now = (b, dm1)) :
    dm1.superblock = dm.superblock ∧ dm1.inode_bitmap = dm.inode_bitmap ∧
    dm1.data_block_bitmap = dm.data_block_bitmap := by
  unfold write_directory_entries at h
  split at h
  · injection h with ha hb
    subst hb
    exact ⟨rfl, rfl, rfl⟩
  · split at h
    · injection h with ha hb
      subst hb
      exact ⟨rfl, rfl, rfl⟩
    · split at h
      · injection h with ha hb
        subst hb
        exact ⟨rfl, rfl, rfl⟩
      · split at h
        · injection h with ha hb
          subst hb
          exact ⟨rfl, rfl, rfl⟩
        · split at h
          · injection h with ha hb
            subst hb
            exact ⟨rfl, rfl, rfl⟩
          · split at h
            · injection h with ha hb
              subst hb
              exact ⟨rfl, rfl, rfl⟩
            · rename_i dmW hw
              injection h with ha hb
              subst hb
              have hf := write_block_pickled_frame _ _ _ _ _ hw
              exact ⟨hf.1, hf.2.1, hf.2.2.1⟩

/-- C8: a rename_item call that returns failure — in particular one whose
serialisation or block write of the updated entry list failed — leaves the
disk state completely unchanged, so the directory entry still carries
old_name.  (The source skips the explicit in-memory restore; the entry
list it renamed was a freshly unpickled copy, so discarding it has the
same effect.) -/
theorem c8_rename_failure_state_unchanged (psize : PSize) (dm : DiskManager)
    (user_uid parent_inode_id : Nat) (old_name new_name : String) (now : Nat)
    (dm' : DiskManager)
    (h : rename_item psize dm user_uid parent_inode_id old_name new_name now
      = some (false, dm')) :
    dm' = dm ∧
    read_directory_entries dm' parent_inode_id = read_directory_entries dm parent_inode_id := by
  have hmain : dm' = dm := by
    unfold rename_item at h
    split at h
    · injection h with h1
      injection h1 with ha hb
      exact hb.symm
    · split at h
      · injection h with h1
        injection h1 with ha hb
        exact hb.symm
      · split at h
        · injection h with h1
          injection h1 with ha hb
          exact Bool.noConfusion ha
        · split at h
          · injection h with h1
            injection h1 with ha hb
            exact hb.symm
          · split at h
            · injection h with h1
              injection h1 with ha hb
              exact hb.symm
            · split at h
              · injection h with h1
                injection h1 with ha hb
                exact hb.symm
              · split at h
                · injection h with h1
                  injection h1 with ha hb
                  exact hb.symm
                · split at h
                  · exact Option.noConfusion h
                  · injection h with h1
                    injection h1 with ha hb
                    exact hb.symm
                  · injection h with h1
                    injection h1 with ha hb
                    exact hb.symm
                  · simp only [] at h
                    split at h
                    · rename_i dmW hw
                      injection h with h1
                      injection h1 with ha hb
                      exact hb.symm.trans
                        (write_directory_entries_fail psize dm dmW _ _ now hw)
                    · injection h with h1
                      injection h1 with ha hb
                      exact Bool.noConfusion ha
  exact ⟨hmain, by rw [hmain]⟩

theorem free_inode_undo (X : DiskManager) (bm : List Bool) (sbX : Superblock) (i : Nat)
    (hsb : X.superblock = some sbX)
    (hbm : X.inode_bitmap = bm.set i false)
    (hlen : i < bm.length)
    (hval : bm.get? i = some true)
    (htot : bm.length = sbX.total_inodes) :
    (free_inode X i).inode_bitmap = bm ∧
    (free_inode X i).data_block_bitmap = X.data_block_bitmap ∧
    (free_inode X i).superblock
      = some { sbX with free_inodes_count := sbX.free_inodes_count + 1 } := by
  unfold free_inode
  simp only [hsb]
  rw [if_neg (by omega : ¬ i ≥ sbX.total_inodes)]
  rw [hbm, List.get?_set_eq_of_lt false (by simpa using hlen)]
  refine ⟨?_, rfl, rfl⟩
  show (bm.set i false).set i true = bm
  rw [List.set_set]
  exact set_of_get?_eq bm i true hval

theorem free_data_block_undo (X : DiskManager) (bm : List Bool) (sbX : Superblock) (j : Nat)
    (hsb : X.superblock = some sbX)
    (hbm : X.data_block_bitmap = bm.set j false)
    (hlen : j < bm.length)
    (hval : bm.get? j = some true)
    (htot : bm.length = sbX.total_blocks) :
    (free_data_block X j).data_block_bitmap = bm ∧
    (free_data_block X j).inode_bitmap = X.inode_bitmap ∧
    (free_data_block X j).inode_table = X.inode_table ∧
    (free_data_block X j).superblock
      = some { sbX with free_blocks_count := sbX.free_blocks_count + 1 } := by
  unfold free_data_block
  simp only [hsb]
  rw [if_neg (by omega : ¬ j ≥ sbX.total_blocks)]
  rw [hbm, List.get?_set_eq_of_lt false (by simpa using hlen)]
  refine ⟨?_, rfl, rfl, rfl⟩
  show (bm.set j false).set j true = bm
  rw [List.set_set]
  exact set_of_get?_eq bm j true hval

/-- C5: make_directory is atomic on failure — on every failure path (no
free inode, no free data block, failure to write the new directory's
initial entries, or failure to write the parent's updated entry list) all
resources allocated for the new directory are rolled back, so both
bitmaps and the superblock's free-inode and free-block counts are exactly
their pre-call values. -/
theorem c5_make_directory_rollback (psize : PSize) (dm : DiskManager)
    (current_user_uid parent_inode_id : Nat) (new_dir_name : String) (now : Nat)
    (sb : Superblock) (hsb : dm.superblock = some sb)
    (hbi : dm.inode_bitmap.length = sb.total_inodes)
    (hbb : dm.data_block_bitmap.length = sb.total_blocks)
    (oid : Option Nat) (dm' : DiskManager)
    (h : make_directory psize dm current_user_uid parent_inode_id new_dir_name now
      = some (false, oid, dm')) :
    dm'.inode_bitmap = dm.inode_bitmap ∧
    dm'.data_block_bitmap = dm.data_block_bitmap ∧
    dm'.superblock.map (fun s => s.free_inodes_count) = some sb.free_inodes_count ∧
    dm'.superblock.map (fun s => s.free_blocks_count) = some sb.free_blocks_count := by
  have base : dm' = dm →
      dm'.inode_bitmap = dm.inode_bitmap ∧
      dm'.data_block_bitmap = dm.data_block_bitmap ∧
      dm'.superblock.map (fun s => s.free_inodes_count) = some sb.free_inodes_count ∧
      dm'.superblock.map (fun s => s.free_blocks_count) = some sb.free_blocks_count := by
    intro hdm
    subst hdm
    exact ⟨rfl, rfl, by simp [hsb], by simp [hsb]⟩
  unfold make_directory at h
  split at h
  · injection h with h1
    injection h1 with ha h2
    injection h2 with hb hc
    exact base hc.symm
  · split at h
    · injection h with h1
      injection h1 with ha h2
      injection h2 with hb hc
      exact base hc.symm
    · split at h
      · injection h with h1
        injection h1 with ha h2
        injection h2 with hb hc
        exact base hc.symm
      · split at h
        · injection h with h1
          injection h1 with ha h2
          injection h2 with hb hc
          exact base hc.symm
        · split at h
          · injection h with h1
            injection h1 with ha h2
            injection h2 with hb hc
            exact base hc.symm
          · split at h
            · exact Option.noConfusion h
            · injection h with h1
              injection h1 with ha h2
              injection h2 with hb hc
              exact base hc.symm
            · split at h
              · rename_i dm1 heqA
                injection h with h1
                injection h1 with ha h2
                injection h2 with hb hc
                exact base (hc.symm.trans (allocate_inode_none dm dm1 heqA))
              · rename_i new_inode_id dm1 heqA
                obtain ⟨hilen, hival, hdm1⟩ := allocate_inode_some dm dm1 _ sb hsb heqA
                split at h
                · rename_i dm2 heqB
                  have hdm2 := allocate_data_block_none dm1 dm2 heqB
                  injection h with h1
                  injection h1 with ha h2
                  injection h2 with hb hc
                  obtain ⟨r1, r2, r3⟩ := free_inode_undo dm2 dm.inode_bitmap
                    { sb with free_inodes_count := sb.free_inodes_count - 1 } new_inode_id
                    (by rw [hdm2, hdm1]) (by rw [hdm2, hdm1]) hilen hival hbi
                  rw [← hc]
                  refine ⟨r1, ?_, ?_, ?_⟩
                  · rw [r2, hdm2, hdm1]
                  · rw [r3]
                    simp
                  · rw [r3]
                    simp
                · rename_i new_data_block_id dm2 heqB
                  obtain ⟨hjlen, hjval, hdm2⟩ := allocate_data_block_some dm1 dm2 _
                    { sb with free_inodes_count := sb.free_inodes_count - 1 }
                    (by rw [hdm1]) heqB
                  have hjlen2 : new_data_block_id < dm.data_block_bitmap.length := by
                    rw [hdm1] at hjlen
                    exact hjlen
                  have hjval2 : dm.data_block_bitmap.get? new_data_block_id = some true := by
                    rw [hdm1] at hjval
                    exact hjval
                  simp only [] at h
                  split at h
                  · rename_i dm4 heqW
                    have hdm4 := write_directory_entries_fail psize _ dm4 _ _ _ heqW
                    injection h with h1
                    injection h1 with ha h2
                    injection h2 with hb hc
                    obtain ⟨s1, s2, s3, s4⟩ := free_data_block_undo dm4
                      dm.data_block_bitmap
                      { { sb with free_inodes_count := sb.free_inodes_count - 1 } with
                        free_blocks_count := sb.free_blocks_count - 1 }
                      new_data_block_id
                      (by rw [hdm4, hdm2]) (by rw [hdm4, hdm2, hdm1]) hjlen2 hjval2 hbb
                    obtain ⟨r1, r2, r3⟩ := free_inode_undo (free_data_block dm4 new_data_block_id)
                      dm.inode_bitmap _ new_inode_id s4
                      (by rw [s2, hdm4, hdm2, hdm1]) hilen hival hbi
                    rw [← hc]
                    refine ⟨r1, ?_, ?_, ?_⟩
                    · rw [r2, s1]
                    · rw [r3]
                      simp
                    · rw [r3]
                      simp
                  · rename_i dm4 heqW
                    have hf := write_directory_entries_res_frame psize _ _ _ _ _ dm4 heqW
                    split at h
                    · rename_i dm5 heqW2
                      have hdm5 := write_directory_entries_fail psize dm4 dm5 _ _ _ heqW2
                      injection h with h1
                      injection h1 with ha h2
                      injection h2 with hb hc
                      obtain ⟨s1, s2, s3, s4⟩ := free_data_block_undo dm5
                        dm.data_block_bitmap
                        { { sb with free_inodes_count := sb.free_inodes_count - 1 } with
                          free_blocks_count := sb.free_blocks_count - 1 }
                        new_data_block_id
                        (by rw [hdm5, hf.1, hdm2]) (by rw [hdm5, hf.2.2, hdm2, hdm1])
                        hjlen2 hjval2 hbb
                      obtain ⟨r1, r2, r3⟩ := free_inode_undo
                        (free_data_block dm5 new_data_block_id)
                        dm.inode_bitmap _ new_inode_id s4
                        (by rw [s2, hdm5, hf.2.1, hdm2, hdm1]) hilen hival hbi
                      rw [← hc]
                      refine ⟨r1, ?_, ?_, ?_⟩
                      · rw [r2, s1]
                      · rw [r3]
                        simp
                      · rw [r3]
                        simp
                    · split at h
                      · injection h with h1
                        injection h1 with ha h2
                        exact Bool.noConfusion ha
                      · injection h with h1
                        injection h1 with ha h2
                        exact Bool.noConfusion ha

/-- C5 witness: the failing mkdir on the one-block disk (the root holds
the only data block, so the new directory's block allocation fails after
its inode was allocated) returns with both bitmaps and both free counts
equal to their pre-call values. -/
theorem c5_make_directory_rollback_witness :
    fullMkDm.inode_bitmap = fullFmt.inode_bitmap ∧
    fullMkDm.data_block_bitmap = fullFmt.data_block_bitmap ∧
    fullMkDm.superblock.map (fun s => s.free_inodes_count) = some 1 ∧
    fullMkDm.superblock.map (fun s => s.free_blocks_count) = some 0 :=
  c5_make_directory_rollback psize0 fullFmt 0 0 "d" 101 _ rfl (by decide) (by decide)
    none fullMkDm rfl

/-- C8 witness: the concrete failing rename (oversized serialisation) on
demoF leaves the state — and hence the entry named "f" — unchanged. -/
theorem c8_rename_failure_witness :
    renameFailDm = demoF ∧
    read_directory_entries renameFailDm 0 = read_directory_entries demoF 0 :=
  c8_rename_failure_state_unchanged pbig demoF 0 0 "f" "h" 102 renameFailDm rfl

/-- C10 witness: the amended cap theorem applied at a concrete allocation
request on the formatted tiny disk, starting from a fresh (empty) file
inode. -/
theorem c10_amended_witness :
    (mkInode 1 FileType.FILE 0 438 100).data_block_indices.length ≤ 12 ∧
    ((allocate_file_blocks psizeN0 tinyF (mkInode 1 FileType.FILE 0 438 100) 20).2.2).data_block_indices.length ≤ 12 :=
  ⟨by decide, c10_amended psizeN0 tinyF (mkInode 1 FileType.FILE 0 438 100) 20 (by decide)⟩

/-! Block-level readback lemmas for the file read/write loops. -/

theorem blockOf_length_of_raw (dm : DiskManager) (bs b : Nat)
    (h : isRawBlock dm bs b = true) : (blockOf dm bs b).length = bs := by
  unfold isRawBlock at h
  unfold blockOf
  split at h
  · rename_i l heq
    rw [heq]
    exact of_decide_eq_true h
  · exact absurd h (by simp)

theorem isRawBlock_elim (dm : DiskManager) (bs b : Nat)
    (h : isRawBlock dm bs b = true) :
    ∃ l, read_block dm b = some (BlockData.bytes l) ∧ l.length = bs := by
  unfold isRawBlock at h
  split at h
  · rename_i l heq
    exact ⟨l, heq, of_decide_eq_true h⟩
  · exact absurd h (by simp)

theorem fileContent_cons (dm : DiskManager) (bs b : Nat) (ids : List Nat) :
    fileContent dm bs (b :: ids) = blockOf dm bs b ++ fileContent dm bs ids := by
  simp [fileContent]

theorem fileContent_append (dm : DiskManager) (bs : Nat) (l1 l2 : List Nat) :
    fileContent dm bs (l1 ++ l2) = fileContent dm bs l1 ++ fileContent dm bs l2 := by
  simp [fileContent]

theorem fileContent_length (dm : DiskManager) (bs : Nat) (ids : List Nat)
    (h : ∀ b ∈ ids, isRawBlock dm bs b = true) :
    (fileContent dm bs ids).length = ids.length * bs := by
  induction ids with
  | nil => simp [fileContent]
  | cons b t ih =>
    rw [fileContent_cons]
    simp only [List.length_append, List.length_cons]
    rw [blockOf_length_of_raw dm bs b (h b (List.mem_cons_self b t)),
      ih (fun x hx => h x (List.mem_cons_of_mem b hx))]
    ring

theorem read_block_congr (dm dm2 : DiskManager) (b : Nat)
    (hsb : sbShape dm2 = sbShape dm)
    (hdb : dm2.data_blocks.get? b = dm.data_blocks.get? b) :
    read_block dm2 b = read_block dm b := by
  unfold sbShape at hsb
  unfold read_block
  cases h1 : dm.superblock with
  | none =>
    rw [h1] at hsb
    cases h2 : dm2.superblock with
    | none => rfl
    | some s2 => rw [h2] at hsb; exact absurd hsb (by simp)
  | some s1 =>
    rw [h1] at hsb
    cases h2 : dm2.superblock with
    | none => rw [h2] at hsb; exact absurd hsb (by simp)
    | some s2 =>
      rw [h2] at hsb
      simp only [Option.map] at hsb
      injection hsb with hsb1
      have htb : s2.total_blocks = s1.total_blocks := congrArg (fun p => p.2.1) hsb1
      show (if b ≥ s2.total_blocks then none else dm2.data_blocks.get? b)
        = (if b ≥ s1.total_blocks then none else dm.data_blocks.get? b)
      rw [htb]
      split
      · rfl
      · exact hdb

theorem blockOf_congr (dm dm2 : DiskManager) (bs b : Nat)
    (h : read_block dm2 b = read_block dm b) : blockOf dm2 bs b = blockOf dm bs b := by
  unfold blockOf
  rw [h]

theorem isRawBlock_congr (dm dm2 : DiskManager) (bs b : Nat)
    (h : read_block dm2 b = read_block dm b) :
    isRawBlock dm2 bs b = isRawBlock dm bs b := by
  unfold isRawBlock
  rw [h]

theorem fileContent_congr (dm dm2 : DiskManager) (bs : Nat) (ids : List Nat)
    (h : ∀ b ∈ ids, read_block dm2 b = read_block dm b) :
    fileContent dm2 bs ids = fileContent dm bs ids := by
  induction ids with
  | nil => rfl
  | cons b t ih =>
    rw [fileContent_cons, fileContent_cons,
      blockOf_congr dm dm2 bs b (h b (List.mem_cons_self b t)),
      ih (fun x hx => h x (List.mem_cons_of_mem b hx))]

theorem fileContent_decomp (dm : DiskManager) (bs : Nat) (ids : List Nat) (q : Nat)
    (hq : q < ids.length) :
    fileContent dm bs ids
      = fileContent dm bs (ids.take q) ++ blockOf dm bs (ids.get ⟨q, hq⟩)
        ++ fileContent dm bs (ids.drop (q + 1)) := by
  conv_lhs => rw [← List.take_append_drop q ids]
  rw [List.drop_eq_get_cons hq, fileContent_append, fileContent_cons]
  simp [List.append_assoc]

theorem fileContent_slice_in_block (dm : DiskManager) (bs : Nat) (ids : List Nat)
    (q r n : Nat) (hq : q < ids.length) (hrn : r + n ≤ bs)
    (hraw : ∀ b ∈ ids, isRawBlock dm bs b = true) :
    ((fileContent dm bs ids).drop (q * bs + r)).take n
      = ((blockOf dm bs (ids.get ⟨q, hq⟩)).drop r).take n := by
  rw [fileContent_decomp dm bs ids q hq]
  have hA : (fileContent dm bs (ids.take q)).length = q * bs := by
    rw [fileContent_length dm bs _ (fun b hb => hraw b (List.mem_of_mem_take hb))]
    rw [List.length_take]
    have : min q ids.length = q := Nat.min_eq_left (Nat.le_of_lt hq)
    rw [this]
  have hB : (blockOf dm bs (ids.get ⟨q, hq⟩)).length = bs :=
    blockOf_length_of_raw dm bs _ (hraw _ (ids.get_mem q hq))
  rw [List.append_assoc]
  rw [← hA, List.drop_append r]
  rw [List.drop_append_of_le_length (by omega : r ≤ (blockOf dm bs (ids.get ⟨q, hq⟩)).length)]
  rw [List.take_append_of_le_length (by rw [List.length_drop]; omega)]

theorem write_block_full_spec (dm : DiskManager) (b : Nat) (data : List Nat)
    (sb : Superblock) (hsb : dm.superblock = some sb) (hb : b < sb.total_blocks)
    (hlen : data.length = sb.block_size) :
    write_block dm b data
      = some { dm with data_blocks := dm.data_blocks.set b (BlockData.bytes data) } := by
  unfold write_block
  simp only [hsb]
  rw [if_neg (by omega : ¬ b ≥ sb.total_blocks)]
  rw [if_neg (by omega : ¬ data.length > sb.block_size)]
  rw [hlen, Nat.sub_self]
  simp

theorem read_block_set_eq (dm dm2 : DiskManager) (j : Nat) (v : BlockData)
    (sb2 : Superblock) (hsb : dm2.superblock = some sb2) (hj : j < sb2.total_blocks)
    (hdb : dm2.data_blocks = dm.data_blocks.set j v) (hjlen : j < dm.data_blocks.length) :
    read_block dm2 j = some v := by
  unfold read_block
  simp only [hsb]
  rw [if_neg (by omega : ¬ j ≥ sb2.total_blocks), hdb]
  rw [List.get?_set_eq_of_lt _ hjlen]

theorem div_le_of_le_mul (off bs L : Nat) (hbs : 0 < bs) (hle : off ≤ L * bs) :
    off / bs ≤ L := by
  by_contra hc
  have h1 : L + 1 ≤ off / bs := by omega
  have h2 : (L + 1) * bs ≤ off / bs * bs := Nat.mul_le_mul_right bs h1
  have h3 : off / bs * bs ≤ off := Nat.div_mul_le_self off bs
  have h4 : (L + 1) * bs = L * bs + bs := by ring
  omega

theorem off_step_le (off bs L k : Nat) (hbs : 0 < bs) (hq : off / bs < L)
    (hk : k ≤ bs - off % bs) : off + k ≤ L * bs := by
  have h1 := Nat.div_add_mod off bs
  have h2 : off % bs < bs := Nat.mod_lt _ hbs
  have h3 : off / bs + 1 ≤ L := hq
  have h4 : (off / bs + 1) * bs ≤ L * bs := Nat.mul_le_mul_right bs h3
  have h5 : (off / bs + 1) * bs = off / bs * bs + bs := by ring
  have h6 : bs * (off / bs) = off / bs * bs := by ring
  omega

theorem off_eq_mul_of_div_eq (off bs L : Nat) (hle : off ≤ L * bs)
    (hdiv : off / bs = L) : off = L * bs := by
  have h1 : off / bs * bs ≤ off := Nat.div_mul_le_self off bs
  rw [hdiv] at h1
  omega

theorem take_mid_append (A X X2 D : List Nat) (r n : Nat) (hA : A.length = n)
    (hX : X.take r = X2.take r) (hrX : r ≤ X.length) (hrX2 : r ≤ X2.length) :
    (A ++ (X ++ D)).take (n + r) = (A ++ (X2 ++ D)).take (n + r) := by
  rw [← hA, List.take_append, List.take_append,
    List.take_append_of_le_length hrX, List.take_append_of_le_length hrX2, hX]

theorem drop_mid_append (A X D : List Nat) (r n : Nat) (hA : A.length = n)
    (hrX : r ≤ X.length) :
    (A ++ (X ++ D)).drop (n + r) = X.drop r ++ D := by
  rw [← hA, List.drop_append, List.drop_append_of_le_length hrX]

theorem writeStep_readback (dm dm1 : DiskManager) (bs : Nat) (ids : List Nat)
    (q r k : Nat) (cur chunk : List Nat)
    (hq : q < ids.length)
    (hnodup : ids.Nodup) (hraw : ∀ b ∈ ids, isRawBlock dm bs b = true)
    (hcur : cur.length = bs) (hchunk : chunk.length = k) (hrk : r + k ≤ bs)
    (hrb : read_block dm (ids.get ⟨q, hq⟩) = some (BlockData.bytes cur))
    (hrb1 : read_block dm1 (ids.get ⟨q, hq⟩)
      = some (BlockData.bytes (cur.take r ++ chunk ++ cur.drop (r + k))))
    (hothers : ∀ b, b ≠ ids.get ⟨q, hq⟩ → read_block dm1 b = read_block dm b) :
    (fileContent dm1 bs ids).take (q * bs + r) = (fileContent dm bs ids).take (q * bs + r)
    ∧ ((fileContent dm1 bs ids).drop (q * bs + r)).take k = chunk
    ∧ (∀ b ∈ ids, isRawBlock dm1 bs b = true) := by
  have hNEWlen : (cur.take r ++ chunk ++ cur.drop (r + k)).length = bs := by
    simp only [List.length_append, List.length_take, List.length_drop, hcur, hchunk]
    omega
  have hsplit : ids.take q ++ ids.get ⟨q, hq⟩ :: ids.drop (q + 1) = ids := by
    conv_rhs => rw [← List.take_append_drop q ids]
    rw [List.drop_eq_get_cons hq]
  have hnd := hnodup
  rw [← hsplit, List.nodup_append] at hnd
  obtain ⟨hnd1, hnd2, hnd3⟩ := hnd
  have hnotA : ids.get ⟨q, hq⟩ ∉ ids.take q :=
    fun hc => (hnd3 hc) (List.mem_cons_self _ _)
  have hnotD : ids.get ⟨q, hq⟩ ∉ ids.drop (q + 1) := (List.nodup_cons.mp hnd2).1
  have hA : fileContent dm1 bs (ids.take q) = fileContent dm bs (ids.take q) :=
    fileContent_congr dm dm1 bs _ (fun b hb => hothers b (fun he => hnotA (he ▸ hb)))
  have hD : fileContent dm1 bs (ids.drop (q + 1)) = fileContent dm bs (ids.drop (q + 1)) :=
    fileContent_congr dm dm1 bs _ (fun b hb => hothers b (fun he => hnotD (he ▸ hb)))
  have hBof1 : blockOf dm1 bs (ids.get ⟨q, hq⟩) = cur.take r ++ chunk ++ cur.drop (r + k) := by
    unfold blockOf
    rw [hrb1]
    rfl
  have hBof : blockOf dm bs (ids.get ⟨q, hq⟩) = cur := by
    unfold blockOf
    rw [hrb]
    rfl
  have hAlen : (fileContent dm bs (ids.take q)).length = q * bs := by
    rw [fileContent_length dm bs _ (fun b hb => hraw b (List.mem_of_mem_take hb))]
    rw [List.length_take]
    rw [Nat.min_eq_left (Nat.le_of_lt hq)]
  have e1 : fileContent dm1 bs ids
      = fileContent dm bs (ids.take q) ++ ((cur.take r ++ chunk ++ cur.drop (r + k))
        ++ fileContent dm bs (ids.drop (q + 1))) := by
    rw [fileContent_decomp dm1 bs ids q hq, hA, hD, hBof1]
    exact List.append_assoc _ _ _
  have e2 : fileContent dm bs ids
      = fileContent dm bs (ids.take q) ++ (cur ++ fileContent dm bs (ids.drop (q + 1))) := by
    rw [fileContent_decomp dm bs ids q hq, hBof]
    exact List.append_assoc _ _ _
  have hcore : (cur.take r ++ chunk ++ cur.drop (r + k)).take r = cur.take r := by
    rw [List.append_assoc]
    rw [List.take_append_of_le_length (by rw [List.length_take]; omega)]
    rw [List.take_take, Nat.min_self]
  refine ⟨?_, ?_, ?_⟩
  · rw [e1, e2]
    exact take_mid_append _ _ _ _ r (q * bs) hAlen hcore (by omega) (by omega)
  · rw [e1, drop_mid_append _ _ _ r (q * bs) hAlen (by omega)]
    have hdropped : (cur.take r ++ chunk ++ cur.drop (r + k)).drop r
        = chunk ++ cur.drop (r + k) := by
      rw [List.append_assoc]
      exact List.drop_left' (by rw [List.length_take]; omega)
    rw [hdropped, List.append_assoc]
    exact List.take_left' hchunk
  · intro b hb
    by_cases hbt : b = ids.get ⟨q, hq⟩
    · subst hbt
      unfold isRawBlock
      simp only [hrb1]
      exact decide_eq_true hNEWlen
    · rw [isRawBlock_congr dm dm1 bs b (hothers b hbt)]
      exact hraw b hb

theorem allocStep_readback (dm dm2 : DiskManager) (bs : Nat) (ids : List Nat) (j : Nat)
    (chunk new : List Nat) (k : Nat)
    (hraw : ∀ b ∈ ids, isRawBlock dm bs b = true)
    (hnotin : j ∉ ids) (hchunk : chunk.length = k)
    (hnew : new = chunk ++ (List.replicate bs 0).drop k) (hnewlen : new.length = bs)
    (hrb2 : read_block dm2 j = some (BlockData.bytes new))
    (hothers : ∀ b, b ≠ j → read_block dm2 b = read_block dm b) :
    (fileContent dm2 bs (ids ++ [j])).take (ids.length * bs) = fileContent dm bs ids
    ∧ ((fileContent dm2 bs (ids ++ [j])).drop (ids.length * bs)).take k = chunk
    ∧ (∀ b ∈ ids ++ [j], isRawBlock dm2 bs b = true) := by
  have hsame : fileContent dm2 bs ids = fileContent dm bs ids :=
    fileContent_congr dm dm2 bs _ (fun b hb => hothers b (fun he => hnotin (he ▸ hb)))
  have hBof : blockOf dm2 bs j = new := by
    unfold blockOf
    rw [hrb2]
    rfl
  have hlen : (fileContent dm2 bs ids).length = ids.length * bs := by
    rw [hsame]
    exact fileContent_length dm bs ids hraw
  have e1 : fileContent dm2 bs (ids ++ [j]) = fileContent dm2 bs ids ++ new := by
    rw [fileContent_append]
    simp [fileContent, hBof]
  refine ⟨?_, ?_, ?_⟩
  · rw [e1, List.take_left' hlen, hsame]
  · rw [e1, List.drop_left' hlen, hnew]
    exact List.take_left' hchunk
  · intro b hb
    rcases List.mem_append.mp hb with hb1 | hb2
    · by_cases hbj : b = j
      · subst hbj
        unfold isRawBlock
        simp only [hrb2]
        exact decide_eq_true hnewlen
      · rw [isRawBlock_congr dm dm2 bs b (hothers b hbj)]
        exact hraw b hb1
    · have hbj : b = j := by simpa using hb2
      subst hbj
      unfold isRawBlock
      simp only [hrb2]
      exact decide_eq_true hnewlen

theorem WOut_step (total bs : Nat) (content : List Nat)
    (dm : DiskManager) (ino : Inode) (off ptr written : Nat)
    (dm2 : DiskManager) (ino1 : Inode) (k : Nat)
    (dm' : DiskManager) (ino' : Inode) (off' written' m1 : Nat)
    (hklen : k ≤ content.length - ptr)
    (happ0 : ∃ app0, ino1.data_block_indices = ino.data_block_indices ++ app0 ∧
      ino1.blocks_count = ino.blocks_count + app0.length ∧
      (app0 = [] ∨ ino.data_block_indices.length * bs ≤ off))
    (htable0 : dm2.inode_table = dm.inode_table)
    (hibm0 : dm2.inode_bitmap = dm.inode_bitmap)
    (hpre0 : (fileContent dm2 bs ino1.data_block_indices).take off
      = (fileContent dm bs ino.data_block_indices).take off)
    (hsl0 : ((fileContent dm2 bs ino1.data_block_indices).drop off).take k
      = (content.drop ptr).take k)
    (hout : WOut total bs content dm2 ino1 (off + k) (ptr + k) (written + k)
      dm' ino' off' written' m1) :
    WOut total bs content dm ino off ptr written dm' ino' off' written' (k + m1) := by
  obtain ⟨app1, ha1, hb1, hg1⟩ := hout.happ
  obtain ⟨app0, ha0, hb0, hg0⟩ := happ0
  refine ⟨?_, ?_, ?_, ?_, hout.inv, ?_, ?_, ?_, ?_⟩
  · have := hout.hoff'
    omega
  · have := hout.hwr
    omega
  · have := hout.hm
    omega
  · refine ⟨app0 ++ app1, ?_, ?_, ?_⟩
    · rw [ha1, ha0, List.append_assoc]
    · rw [hb1, hb0, List.length_append]
      omega
    · rcases hg1 with h1 | h1
      · rcases hg0 with h0 | h0
        · subst h0
          subst h1
          exact Or.inl rfl
        · refine Or.inr ?_
          have hoo := hout.hoff'
          omega
      · refine Or.inr ?_
        have hlen1 : ino1.data_block_indices.length
            = ino.data_block_indices.length + app0.length := by
          rw [ha0]
          simp
        have h2 : ino.data_block_indices.length * bs
            ≤ ino1.data_block_indices.length * bs :=
          Nat.mul_le_mul_right bs (by omega)
        omega
  · rw [hout.htable, htable0]
  · rw [hout.hibm, hibm0]
  · have h1 : (fileContent dm' bs ino'.data_block_indices).take off
        = ((fileContent dm' bs ino'.data_block_indices).take (off + k)).take off := by
      rw [List.take_take, Nat.min_eq_left (by omega : off ≤ off + k)]
    rw [h1, hout.prefixEq, List.take_take, Nat.min_eq_left (by omega : off ≤ off + k), hpre0]
  · rw [List.take_add, List.take_add]
    congr 1
    · calc ((fileContent dm' bs ino'.data_block_indices).drop off).take k
          = ((fileContent dm' bs ino'.data_block_indices).take (off + k)).drop off := by
            rw [List.drop_take, show off + k - off = k from by omega]
        _ = ((fileContent dm2 bs ino1.data_block_indices).take (off + k)).drop off := by
            rw [hout.prefixEq]
        _ = ((fileContent dm2 bs ino1.data_block_indices).drop off).take k := by
            rw [List.drop_take, show off + k - off = k from by omega]
        _ = (content.drop ptr).take k := hsl0
    · rw [List.drop_drop, List.drop_drop]
      exact hout.written_slice

theorem WOut_refl (total bs : Nat) (content : List Nat) (dm : DiskManager) (ino : Inode)
    (off ptr written : Nat) (hinv : WInv total bs dm ino off)
    (hple : content.length ≤ ptr) :
    WOut total bs content dm ino off ptr written dm ino off written
      (content.length - ptr) := by
  refine ⟨by omega, by omega, by omega, ⟨[], by simp, by simp, Or.inl rfl⟩,
    hinv, rfl, rfl, rfl, ?_⟩
  rw [show content.length - ptr = 0 from by omega]
  simp

/-- What the write loop guarantees, by induction on the fuel: under the
loop invariant a run that ends in `success` wrote the whole remaining
content, and a run that ends in `diskFull` wrote exactly the bytes it
reports, with the readback, frame and invariant facts of `WOut`, and (for
`diskFull`) size = the offset reached and all three timestamps = now. -/
theorem writeLoop_spec (total bs now : Nat) (hbs : 0 < bs) (content : List Nat) :
    ∀ fuel : Nat, ∀ (dm : DiskManager) (ino : Inode) (off ptr written : Nat)
      (res : WriteLoopRes),
    writeLoop bs now content fuel dm ino off ptr written = res →
    WInv total bs dm ino off →
    ptr ≤ content.length →
    ((∀ dm' ino' off' written', res = WriteLoopRes.success dm' ino' off' written' →
        WOut total bs content dm ino off ptr written dm' ino' off' written'
          (content.length - ptr)) ∧
     (∀ dm' ino' off' written', res = WriteLoopRes.diskFull dm' ino' off' written' →
        WOut total bs content dm ino off ptr written dm' ino' off' written'
          (written' - written)
        ∧ ino'.size = off' ∧ ino'.mtime = now ∧ ino'.atime = now ∧ ino'.ctime = now)) := by
  intro fuel
  induction fuel with
  | zero =>
    intro dm ino off ptr written res heq hinv hptr
    simp only [writeLoop] at heq
    by_cases hp : ptr < content.length
    · rw [if_pos hp] at heq
      constructor
      · intro dm' ino' off' written' hres
        rw [hres] at heq
        exact WriteLoopRes.noConfusion heq
      · intro dm' ino' off' written' hres
        rw [hres] at heq
        exact WriteLoopRes.noConfusion heq
    · rw [if_neg hp] at heq
      constructor
      · intro dm' ino' off' written' hres
        rw [hres] at heq
        injection heq with e1 e2 e3 e4
        subst e1
        subst e2
        subst e3
        subst e4
        exact WOut_refl total bs content dm ino off ptr written hinv (by omega)
      · intro dm' ino' off' written' hres
        rw [hres] at heq
        exact WriteLoopRes.noConfusion heq
  | succ f ih =>
    intro dm ino off ptr written res heq hinv hptr
    simp only [writeLoop] at heq
    by_cases hp : ptr < content.length
    · rw [if_pos hp] at heq
      obtain ⟨mg, ti, rt, hsh⟩ := hinv.shape
      cases hsbe : dm.superblock with
      | none =>
        unfold sbShape at hsh
        rw [hsbe] at hsh
        exact absurd hsh (by simp)
      | some sb =>
        unfold sbShape at hsh
        rw [hsbe] at hsh
        simp only [Option.map] at hsh
        injection hsh with hsh1
        have htb : sb.total_blocks = total := congrArg (fun p => p.2.1) hsh1
        have hbsz : sb.block_size = bs := congrArg (fun p => p.2.2.2.1) hsh1
        by_cases hq : off / bs < ino.data_block_indices.length
        · rw [dif_pos hq] at heq
          have htmem : ino.data_block_indices.get ⟨off / bs, hq⟩ ∈ ino.data_block_indices :=
            List.get_mem _ _ _
          obtain ⟨cur, hrb, hcurlen⟩ := isRawBlock_elim dm bs _ (hinv.hraw _ htmem)
          simp only [hrb, blockBytes] at heq
          set r := off % bs with hrdef
          set k := min (content.length - ptr) (bs - r) with hkdef
          have hkle : k ≤ content.length - ptr := Nat.min_le_left _ _
          have hkbs : k ≤ bs - r := Nat.min_le_right _ _
          have hrlt : r < bs := by
            rw [hrdef]
            exact Nat.mod_lt _ hbs
          have hC1len : (cur.take r ++ (content.drop ptr).take k ++ cur.drop (r + k)).length
              = sb.block_size := by
            rw [hbsz]
            simp only [List.length_append, List.length_take, List.length_drop, hcurlen]
            omega
          have hwb := write_block_full_spec dm (ino.data_block_indices.get ⟨off / bs, hq⟩)
            (cur.take r ++ (content.drop ptr).take k ++ cur.drop (r + k)) sb hsbe
            (by rw [htb]; exact hinv.hrange _ htmem) hC1len
          simp only [hwb] at heq
          set dm1 : DiskManager := { dm with
            data_blocks := dm.data_blocks.set (ino.data_block_indices.get ⟨off / bs, hq⟩)
              (BlockData.bytes (cur.take r ++ (content.drop ptr).take k ++ cur.drop (r + k))) }
            with hdm1
          have hrb1 : read_block dm1 (ino.data_block_indices.get ⟨off / bs, hq⟩)
              = some (BlockData.bytes (cur.take r ++ (content.drop ptr).take k
                ++ cur.drop (r + k))) := by
            refine read_block_set_eq dm dm1 _ _ sb ?_ ?_ ?_ ?_
            · rw [hdm1]
              exact hsbe
            · rw [htb]
              exact hinv.hrange _ htmem
            · rw [hdm1]
            · have h1 := hinv.hdblen
              have h2 := hinv.hrange _ htmem
              omega
          have hothers : ∀ b, b ≠ ino.data_block_indices.get ⟨off / bs, hq⟩ →
              read_block dm1 b = read_block dm b := by
            intro b hb
            refine read_block_congr dm dm1 b ?_ ?_
            · rw [hdm1]
              rfl
            · rw [hdm1]
              exact List.get?_set_ne _ _ (Ne.symm hb)
          have hchlen : ((content.drop ptr).take k).length = k := by
            rw [List.length_take, List.length_drop]
            omega
          have hstep := writeStep_readback dm dm1 bs ino.data_block_indices (off / bs) r k
            cur ((content.drop ptr).take k) hq hinv.hnodup hinv.hraw hcurlen hchlen
            (by omega) hrb hrb1 hothers
          have hoffd : off = off / bs * bs + r := by
            have h1 := Nat.div_add_mod off bs
            have h2 : bs * (off / bs) = off / bs * bs := Nat.mul_comm _ _
            omega
          have hinv1 : WInv total bs dm1 ino (off + k) := by
            refine ⟨hinv.shape, hinv.hbmlen, ?_, hinv.hrange, hstep.2.2, hinv.halloc,
              hinv.hnodup, ?_, hinv.hbc⟩
            · show (dm.data_blocks.set _ _).length = total
              rw [List.length_set]
              exact hinv.hdblen
            · exact off_step_le off bs _ k hbs hq (by omega)
          have hih := ih dm1 ino (off + k) (ptr + k) (written + k) res heq hinv1 (by omega)
          constructor
          · intro dm' ino' off' written' hres
            have hres1 := hih.1 dm' ino' off' written' hres
            have hcomp := WOut_step total bs content dm ino off ptr written dm1 ino k
              dm' ino' off' written' (content.length - (ptr + k)) (by omega)
              ⟨[], by simp, by simp, Or.inl rfl⟩ (by rw [hdm1]) (by rw [hdm1])
              (by rw [hoffd]; exact hstep.1)
              (by rw [hoffd]; exact hstep.2.1) hres1
            rw [show content.length - ptr = k + (content.length - (ptr + k)) from by omega]
            exact hcomp
          · intro dm' ino' off' written' hres
            have hres1 := hih.2 dm' ino' off' written' hres
            have hcomp := WOut_step total bs content dm ino off ptr written dm1 ino k
              dm' ino' off' written' (written' - (written + k)) (by omega)
              ⟨[], by simp, by simp, Or.inl rfl⟩ (by rw [hdm1]) (by rw [hdm1])
              (by rw [hoffd]; exact hstep.1)
              (by rw [hoffd]; exact hstep.2.1) hres1.1
            have hww := hres1.1.hwr
            refine ⟨?_, hres1.2⟩
            rw [show written' - written = k + (written' - (written + k)) from by omega]
            exact hcomp
        · have hqle : off / bs ≤ ino.data_block_indices.length :=
            div_le_of_le_mul off bs _ hbs hinv.hoff
          have hqe : off / bs = ino.data_block_indices.length := by omega
          rw [dif_neg hq] at heq
          rw [if_neg (by omega : ¬ off / bs ≠ ino.data_block_indices.length)] at heq
          have hoffeq : off = ino.data_block_indices.length * bs :=
            off_eq_mul_of_div_eq off bs _ hinv.hoff hqe
          split at heq
          · rename_i dmA hal
            have hdmA : dmA = dm := allocate_data_block_none dm dmA hal
            subst hdmA
            constructor
            · intro dm' ino' off' written' hres
              rw [hres] at heq
              exact WriteLoopRes.noConfusion heq
            · intro dm' ino' off' written' hres
              rw [hres] at heq
              injection heq with e1 e2 e3 e4
              subst e1
              subst e2
              subst e3
              subst e4
              refine ⟨⟨by omega, by omega, by omega, ⟨[], by simp, by simp, Or.inl rfl⟩,
                ?_, rfl, rfl, rfl, ?_⟩, rfl, rfl, rfl, rfl⟩
              · exact ⟨hinv.shape, hinv.hbmlen, hinv.hdblen, hinv.hrange, hinv.hraw,
                  hinv.halloc, hinv.hnodup, hinv.hoff, hinv.hbc⟩
              · rw [Nat.sub_self]
                simp
          · rename_i j dmA hal
            obtain ⟨hjlen, hjval, hdmA⟩ := allocate_data_block_some dm dmA j sb hsbe hal
            have hr0 : off % bs = 0 := by
              rw [hoffeq]
              exact Nat.mul_mod_left _ _
            rw [hr0] at heq
            simp only [Nat.sub_zero, Nat.zero_add, List.take_zero, List.nil_append] at heq
            set k := min (content.length - ptr) bs with hkdef
            have hklen : k ≤ content.length - ptr := Nat.min_le_left _ _
            have hkbs : k ≤ bs := Nat.min_le_right _ _
            have hchlen : ((content.drop ptr).take k).length = k := by
              rw [List.length_take, List.length_drop]
              omega
            have hC1len : ((content.drop ptr).take k ++ (List.replicate bs 0).drop k).length
                = bs := by
              simp only [List.length_append, List.length_drop, List.length_replicate, hchlen]
              omega
            have hjtot : j < total := by
              have h1 := hinv.hbmlen
              omega
            have hjnotin : j ∉ ino.data_block_indices := by
              intro hc
              have h1 := hinv.halloc j hc
              exact absurd (hjval.symm.trans h1) (by simp)
            have hsbA : dmA.superblock
                = some { sb with free_blocks_count := sb.free_blocks_count - 1 } := by
              rw [hdmA]
            have hwb := write_block_full_spec dmA j
              ((content.drop ptr).take k ++ (List.replicate bs 0).drop k)
              { sb with free_blocks_count := sb.free_blocks_count - 1 } hsbA
              (by show j < sb.total_blocks; omega)
              (by show ((content.drop ptr).take k ++ (List.replicate bs 0).drop k).length
                    = sb.block_size
                  rw [hC1len, hbsz])
            simp only [hwb] at heq
            set dm2 : DiskManager := { dmA with
              data_blocks := dmA.data_blocks.set j
                (BlockData.bytes ((content.drop ptr).take k ++ (List.replicate bs 0).drop k)) }
              with hdm2
            set ino1 : Inode := { ino with
              data_block_indices := ino.data_block_indices ++ [j]
              blocks_count := ino.blocks_count + 1 } with hino1
            have hothers : ∀ b, b ≠ j → read_block dm2 b = read_block dm b := by
              intro b hb
              refine read_block_congr dm dm2 b ?_ ?_
              · unfold sbShape
                rw [show dm2.superblock
                    = some { sb with free_blocks_count := sb.free_blocks_count - 1 } from by
                  rw [hdm2]
                  exact hsbA, hsbe]
                rfl
              · rw [show dm2.data_blocks = dm.data_blocks.set j
                    (BlockData.bytes ((content.drop ptr).take k
                      ++ (List.replicate bs 0).drop k)) from by rw [hdm2, hdmA]]
                exact List.get?_set_ne _ _ (Ne.symm hb)
            have hrb2 : read_block dm2 j = some (BlockData.bytes ((content.drop ptr).take k
                ++ (List.replicate bs 0).drop k)) := by
              refine read_block_set_eq dmA dm2 j _
                { sb with free_blocks_count := sb.free_blocks_count - 1 } ?_ ?_ ?_ ?_
              · rw [hdm2]
                exact hsbA
              · show j < sb.total_blocks
                omega
              · rw [hdm2]
              · rw [show dmA.data_blocks = dm.data_blocks from by rw [hdmA]]
                have h1 := hinv.hdblen
                omega
            have hstep := allocStep_readback dm dm2 bs ino.data_block_indices j
              ((content.drop ptr).take k)
              ((content.drop ptr).take k ++ (List.replicate bs 0).drop k) k
              hinv.hraw hjnotin hchlen rfl hC1len hrb2 hothers
            have hbm2 : dm2.data_block_bitmap = dm.data_block_bitmap.set j false := by
              rw [hdm2, hdmA]
            have hinv1 : WInv total bs dm2 ino1 (off + k) := by
              refine ⟨⟨mg, ti, rt, ?_⟩, ?_, ?_, ?_, ?_, ?_, ?_, ?_, ?_⟩
              · unfold sbShape
                rw [show dm2.superblock
                    = some { sb with free_blocks_count := sb.free_blocks_count - 1 } from by
                  rw [hdm2]
                  exact hsbA]
                simp only [Option.map]
                rw [show ({ sb with free_blocks_count := sb.free_blocks_count - 1
                    } : Superblock).total_blocks = sb.total_blocks from rfl, htb]
                rw [show ({ sb with free_blocks_count := sb.free_blocks_count - 1
                    } : Superblock).block_size = sb.block_size from rfl, hbsz]
                have hti : sb.total_inodes = ti := congrArg (fun p => p.2.2.1) hsh1
                have hmg : sb.magic_number = mg := congrArg (fun p => p.1) hsh1
                have hrt : sb.root_inode_id = rt := congrArg (fun p => p.2.2.2.2) hsh1
                rw [hti, hmg, hrt]
              · rw [hbm2, List.length_set]
                exact hinv.hbmlen
              · rw [show dm2.data_blocks.length = dm.data_blocks.length from by
                  rw [hdm2, hdmA, List.length_set]]
                exact hinv.hdblen
              · intro b hb
                rw [hino1] at hb
                rcases List.mem_append.mp hb with hb1 | hb2
                · exact hinv.hrange b hb1
                · have : b = j := by simpa using hb2
                  subst this
                  exact hjtot
              · show ∀ b ∈ ino.data_block_indices ++ [j], isRawBlock dm2 bs b = true
                exact hstep.2.2
              · intro b hb
                rw [hino1] at hb
                rw [hbm2]
                rcases List.mem_append.mp hb with hb1 | hb2
                · have hbj : b ≠ j := fun he => hjnotin (he ▸ hb1)
                  rw [List.get?_set_ne _ _ (Ne.symm hbj)]
                  exact hinv.halloc b hb1
                · have : b = j := by simpa using hb2
                  subst this
                  rw [List.get?_set_eq_of_lt _ hjlen]
              · show (ino.data_block_indices ++ [j]).Nodup
                rw [List.nodup_append]
                refine ⟨hinv.hnodup, List.nodup_singleton j, ?_⟩
                intro a ha hb
                have : a = j := by simpa using hb
                subst this
                exact hjnotin ha
              · show off + k ≤ (ino.data_block_indices ++ [j]).length * bs
                rw [List.length_append, show ([j] : List Nat).length = 1 from rfl]
                have h1 : (ino.data_block_indices.length + 1) * bs
                    = ino.data_block_indices.length * bs + bs := by ring
                omega
              · show ino.blocks_count + 1 = (ino.data_block_indices ++ [j]).length
                rw [List.length_append, hinv.hbc]
                rfl
            have hih := ih dm2 ino1 (off + k) (ptr + k) (written + k) res heq hinv1 (by omega)
            have happ0 : ∃ app0, ino1.data_block_indices = ino.data_block_indices ++ app0 ∧
                ino1.blocks_count = ino.blocks_count + app0.length ∧
                (app0 = [] ∨ ino.data_block_indices.length * bs ≤ off) := by
              refine ⟨[j], by rw [hino1], by rw [hino1]; simp, Or.inr (le_of_eq hoffeq.symm)⟩
            have hlenC : (fileContent dm bs ino.data_block_indices).length
                = ino.data_block_indices.length * bs :=
              fileContent_length dm bs _ hinv.hraw
            have hpre0 : (fileContent dm2 bs ino1.data_block_indices).take off
                = (fileContent dm bs ino.data_block_indices).take off := by
              rw [hoffeq, show ino1.data_block_indices
                = ino.data_block_indices ++ [j] from by rw [hino1]]
              rw [hstep.1, List.take_of_length_le (le_of_eq hlenC)]
            have hsl0 : ((fileContent dm2 bs ino1.data_block_indices).drop off).take k
                = (content.drop ptr).take k := by
              rw [hoffeq, show ino1.data_block_indices
                = ino.data_block_indices ++ [j] from by rw [hino1]]
              exact hstep.2.1
            constructor
            · intro dm' ino' off' written' hres
              have hres1 := hih.1 dm' ino' off' written' hres
              have hcomp := WOut_step total bs content dm ino off ptr written dm2 ino1 k
                dm' ino' off' written' (content.length - (ptr + k)) (by omega)
                happ0 (by rw [hdm2, hdmA]) (by rw [hdm2, hdmA]) hpre0 hsl0 hres1
              rw [show content.length - ptr = k + (content.length - (ptr + k)) from by omega]
              exact hcomp
            · intro dm' ino' off' written' hres
              have hres1 := hih.2 dm' ino' off' written' hres
              have hcomp := WOut_step total bs content dm ino off ptr written dm2 ino1 k
                dm' ino' off' written' (written' - (written + k)) (by omega)
                happ0 (by rw [hdm2, hdmA]) (by rw [hdm2, hdmA]) hpre0 hsl0 hres1.1
              have hww := hres1.1.hwr
              refine ⟨?_, hres1.2⟩
              rw [show written' - written = k + (written' - (written + k)) from by omega]
              exact hcomp
    · rw [if_neg hp] at heq
      constructor
      · intro dm' ino' off' written' hres
        rw [hres] at heq
        injection heq with e1 e2 e3 e4
        subst e1
        subst e2
        subst e3
        subst e4
        exact WOut_refl total bs content dm ino off ptr written hinv (by omega)
      · intro dm' ino' off' written' hres
        rw [hres] at heq
        exact WriteLoopRes.noConfusion heq

theorem free_data_block_frame (dm : DiskManager) (x : Nat) :
    (free_data_block dm x).inode_table = dm.inode_table ∧
    (free_data_block dm x).inode_bitmap = dm.inode_bitmap ∧
    (free_data_block dm x).data_blocks = dm.data_blocks ∧
    (free_data_block dm x).data_block_bitmap.length = dm.data_block_bitmap.length := by
  unfold free_data_block
  split
  · exact ⟨rfl, rfl, rfl, rfl⟩
  · split
    · exact ⟨rfl, rfl, rfl, rfl⟩
    · split
      · exact ⟨rfl, rfl, rfl, by rw [List.length_set]⟩
      · exact ⟨rfl, rfl, rfl, rfl⟩

theorem free_data_block_get?_other (dm : DiskManager) (x b : Nat) (hne : b ≠ x) :
    (free_data_block dm x).data_block_bitmap.get? b = dm.data_block_bitmap.get? b := by
  unfold free_data_block
  split
  · rfl
  · split
    · rfl
    · split
      · exact List.get?_set_ne _ _ (Ne.symm hne)
      · rfl

theorem free_data_block_sbShape (dm : DiskManager) (x : Nat) :
    sbShape (free_data_block dm x) = sbShape dm := by
  unfold free_data_block
  split
  · rfl
  · rename_i sb heq
    split
    · rfl
    · split
      · unfold sbShape
        rw [heq]
        rfl
      · rfl

theorem foldl_free_data_block_frame (D : List Nat) : ∀ dm : DiskManager,
    ((D.foldl free_data_block dm).inode_table = dm.inode_table) ∧
    ((D.foldl free_data_block dm).inode_bitmap = dm.inode_bitmap) ∧
    ((D.foldl free_data_block dm).data_blocks = dm.data_blocks) ∧
    ((D.foldl free_data_block dm).data_block_bitmap.length
      = dm.data_block_bitmap.length) := by
  induction D with
  | nil =>
    intro dm
    exact ⟨rfl, rfl, rfl, rfl⟩
  | cons hd tl ih =>
    intro dm
    rw [List.foldl_cons]
    have h1 := free_data_block_frame dm hd
    have h2 := ih (free_data_block dm hd)
    exact ⟨h2.1.trans h1.1, h2.2.1.trans h1.2.1, h2.2.2.1.trans h1.2.2.1,
      h2.2.2.2.trans h1.2.2.2⟩

theorem foldl_free_get?_frame (tl : List Nat) : ∀ (dm : DiskManager) (b : Nat), b ∉ tl →
    (tl.foldl free_data_block dm).data_block_bitmap.get? b
      = dm.data_block_bitmap.get? b := by
  induction tl with
  | nil =>
    intro dm b _
    rfl
  | cons hd tl2 ih =>
    intro dm b hb
    rw [List.foldl_cons]
    rw [ih (free_data_block dm hd) b (fun hc => hb (List.mem_cons_of_mem hd hc))]
    exact free_data_block_get?_other dm hd b
      (fun he => hb (he ▸ List.mem_cons_self hd tl2))

theorem foldl_free_marks (D : List Nat) : ∀ (dm : DiskManager)
    (mg total ti bsv : Nat) (rt : Option Nat),
    sbShape dm = some (mg, total, ti, bsv, rt) →
    D.Nodup → (∀ b ∈ D, b < total) →
    (∀ b ∈ D, dm.data_block_bitmap.get? b = some false) →
    dm.data_block_bitmap.length = total →
    ∀ b ∈ D, (D.foldl free_data_block dm).data_block_bitmap.get? b = some true := by
  induction D with
  | nil =>
    intro dm mg total ti bsv rt hsh hnd hrange hfalse hlen b hb
    exact absurd hb (by simp)
  | cons hd tl ih =>
    intro dm mg total ti bsv rt hsh hnd hrange hfalse hlen b hb
    cases hsbe : dm.superblock with
    | none =>
      unfold sbShape at hsh
      rw [hsbe] at hsh
      exact absurd hsh (by simp)
    | some sb =>
      have htb : sb.total_blocks = total := by
        unfold sbShape at hsh
        rw [hsbe] at hsh
        simp only [Option.map] at hsh
        injection hsh with h1
        exact congrArg (fun p => p.2.1) h1
      have hstep : free_data_block dm hd = { dm with
          data_block_bitmap := dm.data_block_bitmap.set hd true
          superblock := some { sb with free_blocks_count := sb.free_blocks_count + 1 } } := by
        unfold free_data_block
        simp only [hsbe]
        rw [if_neg (by
          have := hrange hd (List.mem_cons_self hd tl)
          omega : ¬ hd ≥ sb.total_blocks)]
        simp only [hfalse hd (List.mem_cons_self hd tl)]
      have hlen2 : hd < dm.data_block_bitmap.length := by
        have := hrange hd (List.mem_cons_self hd tl)
        omega
      rw [List.foldl_cons]
      rcases List.mem_cons.mp hb with hbe | hbt
      · subst hbe
        rw [foldl_free_get?_frame tl _ b (List.nodup_cons.mp hnd).1]
        rw [hstep]
        exact List.get?_set_eq_of_lt true hlen2
      · refine ih (free_data_block dm hd) mg total ti bsv rt ?_ (List.nodup_cons.mp hnd).2
          (fun x hx => hrange x (List.mem_cons_of_mem hd hx)) ?_ ?_ b hbt
        · rw [free_data_block_sbShape]
          exact hsh
        · intro x hx
          rw [hstep]
          have hxhd : x ≠ hd := fun he => (List.nodup_cons.mp hnd).1 (he ▸ hx)
          show (dm.data_block_bitmap.set hd true).get? x = some false
          rw [List.get?_set_ne _ _ (Ne.symm hxhd)]
          exact hfalse x (List.mem_cons_of_mem hd hx)
        · rw [hstep]
          show (dm.data_block_bitmap.set hd true).length = total
          rw [List.length_set]
          exact hlen

theorem required_le (offv bs L : Nat) (hbs : 0 < bs) (h : offv ≤ L * bs) :
    (if offv > 0 then (offv + bs - 1) / bs else 0) ≤ L := by
  split
  · have h2 : (L + 1) * bs = L * bs + bs := by ring
    have h1 : offv + bs - 1 < (L + 1) * bs := by omega
    have h3 := (Nat.div_lt_iff_lt_mul hbs).mpr h1
    omega
  · omega

theorem required_ge (offv bs L0 : Nat) (hbs : 0 < bs) (h : L0 * bs ≤ offv) :
    L0 ≤ (if offv > 0 then (offv + bs - 1) / bs else 0) := by
  split
  · exact (Nat.le_div_iff_mul_le hbs).mpr (by omega)
  · rcases Nat.mul_eq_zero.mp (by omega : L0 * bs = 0) with h1 | h1
    · omega
    · omega

/-- C3: write_file's success path. For every fd open in a writable mode
(and a well-formed file inode), success means every byte of the content
was written: bytes_written = len(content), the inode's size equals the
final offset = start offset + bytes written, blocks_count is set to
exactly the recomputed required count, the direct map holds exactly that
many blocks, and whenever the required count is below the old map length
the excess tail blocks are freed back to the block bitmap — so writing
shorter content at offset 0 shrinks the file. -/
theorem c3_write_file_success (dm : DiskManager) (auth : Auth) (fd : Nat)
    (content : List Nat) (now : Nat) (u : User) (oft : OpenFileEntry) (sb : Superblock)
    (ino : Inode) (w : Nat) (dm' : DiskManager) (auth' : Auth)
    (hu : auth.current_user = some u)
    (hoft : auth.get_oft_entry fd = some oft)
    (hmode : oft.mode ∈ [OpenMode.WRITE, OpenMode.APPEND, OpenMode.READ_WRITE])
    (hino : (dm.inode_table.get? oft.inode_id).join = some ino)
    (hsb : dm.superblock = some sb) (hbs : 0 < sb.block_size)
    (hidlt : oft.inode_id < dm.inode_table.length)
    (hbml : dm.data_block_bitmap.length = sb.total_blocks)
    (hdbl : dm.data_blocks.length = sb.total_blocks)
    (hrange : ∀ b ∈ ino.data_block_indices, b < sb.total_blocks)
    (hraw : ∀ b ∈ ino.data_block_indices, isRawBlock dm sb.block_size b = true)
    (halloc : ∀ b ∈ ino.data_block_indices, dm.data_block_bitmap.get? b = some false)
    (hnodup : ino.data_block_indices.Nodup)
    (hoffb : oft.offset ≤ ino.data_block_indices.length * sb.block_size)
    (hbc : ino.blocks_count = ino.data_block_indices.length)
    (heq : write_file dm auth fd content now
      = some (true, WriteMsg.okMsg, some w, dm', auth')) :
    C3Post auth fd content now oft sb.block_size ino w dm' auth' := by
  unfold write_file at heq
  simp only [hu, hoft] at heq
  rw [if_neg (not_not_intro hmode)] at heq
  simp only [hino, hsb] at heq
  rw [if_neg (by omega : ¬ sb.block_size = 0)] at heq
  split at heq
  · simp at heq
  · simp at heq
  · simp at heq
  · rename_i dmL inoL offL wL hwl
    injection heq with h1
    injection h1 with hb1 h2
    injection h2 with hm1 h3
    injection h3 with hw h4
    injection h4 with hdm hauth
    injection hw with hw1
    subst hdm
    subst hauth
    subst hw1
    have hinvW : WInv sb.total_blocks sb.block_size dm ino oft.offset :=
      ⟨⟨sb.magic_number, sb.total_inodes, sb.root_inode_id, by simp [sbShape, hsb]⟩,
        hbml, hdbl, hrange, hraw, halloc, hnodup, hoffb, hbc⟩
    have hout := (writeLoop_spec sb.total_blocks sb.block_size now hbs content
      content.length dm ino oft.offset 0 0 _ hwl hinvW (by omega)).1 dmL inoL offL wL rfl
    have hoffL : offL = oft.offset + content.length := by
      have := hout.hoff'
      omega
    have hwrL : wL = content.length := by
      have := hout.hwr
      omega
    obtain ⟨app, hApp, hBc2, hGrow⟩ := hout.happ
    have hinvL := hout.inv
    have htableL := hout.htable
    unfold C3Post
    set REQ := (if offL > 0 then (offL + sb.block_size - 1) / sb.block_size else 0)
      with hREQ
    have hRB : requiredBlocks sb.block_size (oft.offset + content.length) = REQ := by
      rw [hREQ, hoffL]
      rfl
    have hreqle : REQ ≤ inoL.data_block_indices.length := by
      rw [hREQ]
      exact required_le offL sb.block_size _ hbs hinvL.hoff
    cases hfepair : (if REQ < inoL.blocks_count then
        ((inoL.data_block_indices.drop REQ).foldl free_data_block dmL,
         { inoL with data_block_indices := inoL.data_block_indices.take REQ })
      else (dmL, inoL)) with
    | mk fDm fIno =>
      split at hfepair
      · rename_i hc
        injection hfepair with hf1 hf2
        subst hf1
        subst hf2
        have hFOLD := foldl_free_data_block_frame (inoL.data_block_indices.drop REQ) dmL
        refine ⟨by omega, by rw [hoffL], ?_⟩
        refine ⟨{ { inoL with data_block_indices := inoL.data_block_indices.take REQ } with
            blocks_count := REQ
            size := offL
            mtime := now
            atime := now
            ctime := now },
          ?_, hoffL, rfl, rfl, rfl, ?_, ?_, ?_⟩
        · exact List.get?_set_eq_of_lt _ (by rw [hFOLD.1, htableL]; exact hidlt)
        · show REQ = requiredBlocks sb.block_size (oft.offset + content.length)
          rw [hRB]
        · show (inoL.data_block_indices.take REQ).length
            = requiredBlocks sb.block_size (oft.offset + content.length)
          rw [List.length_take, Nat.min_eq_left hreqle, hRB]
        · intro hreq0
          rw [hRB] at hreq0
          rcases hGrow with hApp0 | hGrowB
          · have hdbiEq : inoL.data_block_indices = ino.data_block_indices := by
              rw [hApp, hApp0]
              simp
            constructor
            · show inoL.data_block_indices.take REQ
                = ino.data_block_indices.take (requiredBlocks sb.block_size
                    (oft.offset + content.length))
              rw [hdbiEq, hRB]
            · intro b hb
              show ((inoL.data_block_indices.drop REQ).foldl free_data_block
                dmL).data_block_bitmap.get? b = some true
              obtain ⟨mg2, ti2, rt2, hsh2⟩ := hinvL.shape
              exact foldl_free_marks _ dmL mg2 sb.total_blocks ti2 sb.block_size rt2 hsh2
                ((List.drop_sublist _ _).nodup hinvL.hnodup)
                (fun x hx => hinvL.hrange x (List.mem_of_mem_drop hx))
                (fun x hx => hinvL.halloc x (List.mem_of_mem_drop hx))
                hinvL.hbmlen b (by rw [hdbiEq, ← hRB]; exact hb)
          · exfalso
            have h1 := required_ge offL sb.block_size
              (ino.data_block_indices.length) hbs hGrowB
            rw [← hREQ] at h1
            omega
      · rename_i hc
        injection hfepair with hf1 hf2
        subst hf1
        subst hf2
        have hreqeq2 : REQ = inoL.data_block_indices.length := by
          have := hinvL.hbc
          omega
        refine ⟨by omega, by rw [hoffL], ?_⟩
        refine ⟨{ inoL with
            blocks_count := REQ
            size := offL
            mtime := now
            atime := now
            ctime := now },
          ?_, hoffL, rfl, rfl, rfl, ?_, ?_, ?_⟩
        · exact List.get?_set_eq_of_lt _ (by rw [htableL]; exact hidlt)
        · show REQ = requiredBlocks sb.block_size (oft.offset + content.length)
          rw [hRB]
        · show inoL.data_block_indices.length
            = requiredBlocks sb.block_size (oft.offset + content.length)
          rw [← hreqeq2, hRB]
        · intro hreq0
          exfalso
          rw [hRB] at hreq0
          have hlenApp : inoL.data_block_indices.length
              = ino.data_block_indices.length + app.length := by
            rw [hApp]
            simp
          omega

/-- C3 witness: the claim theorem at the concrete save-and-truncate
scenario — overwriting the 52-byte (13-block) file with 5 bytes at
offset 0 succeeds, reports 5 bytes written, and shrinks the file. -/
theorem c3_write_file_success_witness :
    (∀ b ∈ tinyInoW.data_block_indices, isRawBlock tinyWriteDm tinySb.block_size b = true) ∧
    C3Post tinyAuth 0 [1, 2, 3, 4, 5] 103 ⟨1, OpenMode.WRITE, 0⟩ tinySb.block_size
      tinyInoW 5 c3Dm c3Auth :=
  ⟨by decide,
   c3_write_file_success tinyWriteDm tinyAuth 0 [1, 2, 3, 4, 5] 103 ⟨0⟩
     ⟨1, OpenMode.WRITE, 0⟩ tinySb tinyInoW 5 c3Dm c3Auth
     (by decide) (by decide) (by decide) (by decide) (by decide) (by decide)
     (by decide) (by decide) (by decide) (by decide) (by decide) (by decide)
     (by decide) (by decide) (by decide) (by decide)⟩

/-- C7: write_file's disk-full path. When the loop hits a data-block
allocation failure mid-write, the bytes already written stay committed
(they read back from the file as the written prefix of the content), the
inode's size is set to the offset actually reached with the timestamps
updated, and the call returns the exact count of bytes written before
the failure, advancing the fd offset by it. -/
theorem c7_write_file_disk_full (dm : DiskManager) (auth : Auth) (fd : Nat)
    (content : List Nat) (now : Nat) (u : User) (oft : OpenFileEntry) (sb : Superblock)
    (ino : Inode) (w : Nat) (dm' : DiskManager) (auth' : Auth)
    (hu : auth.current_user = some u)
    (hoft : auth.get_oft_entry fd = some oft)
    (hmode : oft.mode ∈ [OpenMode.WRITE, OpenMode.APPEND, OpenMode.READ_WRITE])
    (hino : (dm.inode_table.get? oft.inode_id).join = some ino)
    (hsb : dm.superblock = some sb) (hbs : 0 < sb.block_size)
    (hidlt : oft.inode_id < dm.inode_table.length)
    (hbml : dm.data_block_bitmap.length = sb.total_blocks)
    (hdbl : dm.data_blocks.length = sb.total_blocks)
    (hrange : ∀ b ∈ ino.data_block_indices, b < sb.total_blocks)
    (hraw : ∀ b ∈ ino.data_block_indices, isRawBlock dm sb.block_size b = true)
    (halloc : ∀ b ∈ ino.data_block_indices, dm.data_block_bitmap.get? b = some false)
    (hnodup : ino.data_block_indices.Nodup)
    (hoffb : oft.offset ≤ ino.data_block_indices.length * sb.block_size)
    (hbc : ino.blocks_count = ino.data_block_indices.length)
    (heq : write_file dm auth fd content now
      = some (false, WriteMsg.diskFullMsg, some w, dm', auth')) :
    C7Post auth fd content now oft sb.block_size w dm' auth' := by
  unfold write_file at heq
  simp only [hu, hoft] at heq
  rw [if_neg (not_not_intro hmode)] at heq
  simp only [hino, hsb] at heq
  rw [if_neg (by omega : ¬ sb.block_size = 0)] at heq
  split at heq
  · simp at heq
  · rename_i dmL inoL offL wL hwl
    injection heq with h1
    injection h1 with hb1 h2
    injection h2 with hm1 h3
    injection h3 with hw h4
    injection h4 with hdm hauth
    injection hw with hw1
    subst hdm
    subst hauth
    subst hw1
    have hinvW : WInv sb.total_blocks sb.block_size dm ino oft.offset :=
      ⟨⟨sb.magic_number, sb.total_inodes, sb.root_inode_id, by simp [sbShape, hsb]⟩,
        hbml, hdbl, hrange, hraw, halloc, hnodup, hoffb, hbc⟩
    have hout := (writeLoop_spec sb.total_blocks sb.block_size now hbs content
      content.length dm ino oft.offset 0 0 _ hwl hinvW (by omega)).2 dmL inoL offL wL rfl
    have hoffL : offL = oft.offset + wL := by
      have h1 := hout.1.hoff'
      have h2 := hout.1.hwr
      omega
    unfold C7Post
    refine ⟨?_, by rw [hoffL], ?_⟩
    · have := hout.1.hm
      omega
    · refine ⟨inoL, ?_, ?_, hout.2.2.1, hout.2.2.2.1, hout.2.2.2.2, ?_⟩
      · exact List.get?_set_eq_of_lt _ (by rw [hout.1.htable]; exact hidlt)
      · rw [hout.2.1]
        exact hoffL
      · have hcongr : fileContent
            { dmL with inode_table := dmL.inode_table.set oft.inode_id (some inoL) }
            sb.block_size inoL.data_block_indices
            = fileContent dmL sb.block_size inoL.data_block_indices :=
          fileContent_congr dmL _ _ _ (fun b _ => rfl)
        rw [hcongr]
        have hws := hout.1.written_slice
        simpa using hws
  · simp at heq
  · simp at heq

/-- C7 witness: the claim theorem at the concrete scenario — writing 20
bytes into a 4-byte-block disk with only 3 free blocks fills the disk
after 12 bytes, which stay committed and readable. -/
theorem c7_write_file_disk_full_witness :
    (∀ b ∈ c7Ino.data_block_indices, isRawBlock c7F c7Sb.block_size b = true) ∧
    C7Post tinyAuth 0 (List.range 20) 102 ⟨1, OpenMode.WRITE, 0⟩ c7Sb.block_size
      12 c7Dm c7Auth :=
  ⟨by decide,
   c7_write_file_disk_full c7F tinyAuth 0 (List.range 20) 102 ⟨0⟩
     ⟨1, OpenMode.WRITE, 0⟩ c7Sb c7Ino 12 c7Dm c7Auth
     (by decide) (by decide) (by decide) (by decide) (by decide) (by decide)
     (by decide) (by decide) (by decide) (by decide) (by decide) (by decide)
     (by decide) (by decide) (by decide) (by decide)⟩

/-- What the read loop guarantees, by induction on the fuel: under the
range/rawness hypotheses, a run asked to gather `want - got` more bytes
that stay within the mapped blocks returns the slice of the file content
starting at the running offset, with the offset advanced by that count. -/
theorem readLoop_spec (total bs : Nat) (hbs : 0 < bs) (dm : DiskManager) (ino : Inode)
    (want : Nat)
    (hsh : ∃ mg ti rt, sbShape dm = some (mg, total, ti, bs, rt))
    (hdbl : dm.data_blocks.length = total)
    (hrange : ∀ b ∈ ino.data_block_indices, b < total)
    (hraw : ∀ b ∈ ino.data_block_indices, isRawBlock dm bs b = true) :
    ∀ fuel temp_offset got acc,
    got ≤ want → want - got ≤ fuel →
    temp_offset + (want - got) ≤ ino.data_block_indices.length * bs →
    ∃ chunks, readLoop bs dm ino want fuel temp_offset got acc
        = some (acc ++ chunks, temp_offset + (want - got))
      ∧ chunks.flatten
        = ((fileContent dm bs ino.data_block_indices).drop temp_offset).take
            (want - got) := by
  intro fuel
  induction fuel with
  | zero =>
    intro temp_offset got acc hgw hf hb
    refine ⟨[], ?_, ?_⟩
    · simp only [readLoop]
      rw [if_neg (by omega : ¬ got < want)]
      rw [show want - got = 0 from by omega]
      simp
    · rw [show want - got = 0 from by omega]
      simp
  | succ f ih =>
    intro temp_offset got acc hgw hf hb
    by_cases hgl : got < want
    · have hq : temp_offset / bs < ino.data_block_indices.length := by
        have h1 : temp_offset < ino.data_block_indices.length * bs := by omega
        exact (Nat.div_lt_iff_lt_mul hbs).mpr h1
      obtain ⟨cur, hrb, hcurlen⟩ :=
        isRawBlock_elim dm bs _ (hraw _ (List.get_mem ino.data_block_indices _ hq))
      simp only [readLoop]
      rw [if_pos hgl, dif_pos hq]
      simp only [hrb, blockBytes]
      set r := temp_offset % bs with hrdef
      set tn := min (bs - r) (want - got) with htndef
      have htn1 : tn ≤ bs - r := Nat.min_le_left _ _
      have htn2 : tn ≤ want - got := Nat.min_le_right _ _
      have hrlt : r < bs := by
        rw [hrdef]
        exact Nat.mod_lt _ hbs
      have htnpos : 0 < tn := by
        rw [htndef]
        omega
      obtain ⟨chunks1, hloop, hflat⟩ := ih (temp_offset + tn) (got + tn)
        (acc ++ [(cur.drop r).take tn]) (by omega) (by omega) (by omega)
      refine ⟨[(cur.drop r).take tn] ++ chunks1, ?_, ?_⟩
      · rw [hloop]
        have harith : temp_offset + tn + (want - (got + tn))
            = temp_offset + (want - got) := by omega
        rw [harith, List.append_assoc]
      · rw [show ([(cur.drop r).take tn] ++ chunks1).flatten
            = (cur.drop r).take tn ++ chunks1.flatten from by simp]
        rw [hflat]
        have hslice := fileContent_slice_in_block dm bs ino.data_block_indices
          (temp_offset / bs) r tn hq (by omega) hraw
        have hBof : blockOf dm bs (ino.data_block_indices.get ⟨temp_offset / bs, hq⟩)
            = cur := by
          unfold blockOf
          rw [hrb]
          rfl
        have hofft : temp_offset = temp_offset / bs * bs + r := by
          rw [hrdef]
          have h1 := Nat.div_add_mod temp_offset bs
          have h2 : bs * (temp_offset / bs) = temp_offset / bs * bs := Nat.mul_comm _ _
          omega
        conv_rhs => rw [show want - got = tn + (want - (got + tn)) from by omega,
          List.take_add]
        congr 1
        · rw [hofft, hslice, hBof]
        · rw [List.drop_drop]
    · refine ⟨[], ?_, ?_⟩
      · simp only [readLoop]
        rw [if_neg hgl]
        rw [show want - got = 0 from by omega]
        simp
      · rw [show want - got = 0 from by omega]
        simp

/-- C4: read_file. For every fd open in a readable mode and every
requested length n ≥ 0 (with a well-formed file inode), the call returns
exactly min(n, size - offset) bytes taken from the file's blocks at the
current offset and advances the offset by that amount; n = 0 and
offset ≥ size both succeed with an empty byte string. -/
theorem c4_read_file_returns_slice (dm : DiskManager) (auth : Auth) (fd : Nat)
    (n : Int) (now : Nat) (u : User) (oft : OpenFileEntry) (sb : Superblock)
    (ino : Inode)
    (hu : auth.current_user = some u)
    (hoft : auth.get_oft_entry fd = some oft)
    (hmode : oft.mode ∈ [OpenMode.READ, OpenMode.READ_WRITE])
    (hino : (dm.inode_table.get? oft.inode_id).join = some ino)
    (hsb : dm.superblock = some sb) (hbs : 0 < sb.block_size)
    (hn : 0 ≤ n)
    (hdbl : dm.data_blocks.length = sb.total_blocks)
    (hrange : ∀ b ∈ ino.data_block_indices, b < sb.total_blocks)
    (hraw : ∀ b ∈ ino.data_block_indices, isRawBlock dm sb.block_size b = true)
    (hsize : ino.size ≤ ino.data_block_indices.length * sb.block_size) :
    C4Post dm auth fd n now oft sb.block_size ino := by
  unfold C4Post
  refine ⟨?_, ?_, ?_⟩
  · intro h0
    unfold read_file
    simp only [hu, hoft]
    rw [if_neg (not_not_intro hmode)]
    rw [if_neg (by omega : ¬ n < 0), if_pos h0]
  · intro hn0 hle
    unfold read_file
    simp only [hu, hoft]
    rw [if_neg (not_not_intro hmode)]
    rw [if_neg (by omega : ¬ n < 0), if_neg hn0]
    simp only [hino, hsb]
    rw [if_pos (by omega : oft.offset ≥ ino.size)]
  · intro hn0 hlt
    unfold read_file
    simp only [hu, hoft]
    rw [if_neg (not_not_intro hmode)]
    rw [if_neg (by omega : ¬ n < 0), if_neg hn0]
    simp only [hino, hsb]
    rw [if_neg (by omega : ¬ oft.offset ≥ ino.size)]
    rw [if_neg (by omega : ¬ min n.toNat (ino.size - oft.offset) = 0)]
    rw [if_neg (by omega : ¬ sb.block_size = 0)]
    obtain ⟨chunks, hloop, hflat⟩ := readLoop_spec sb.total_blocks sb.block_size hbs dm ino
      (min n.toNat (ino.size - oft.offset))
      ⟨sb.magic_number, sb.total_inodes, sb.root_inode_id, by simp [sbShape, hsb]⟩
      hdbl hrange hraw (min n.toNat (ino.size - oft.offset)) oft.offset 0 []
      (by omega) (by omega) (by omega)
    refine ⟨?_, ?_⟩
    · simp only [hloop]
      rw [show ([] ++ chunks : List (List Nat)).flatten = chunks.flatten from by simp,
        hflat]
      simp
    · rw [List.length_take, List.length_drop, fileContent_length dm sb.block_size _ hraw]
      omega

/-- C4 witness: the claim theorem at the concrete scenario — reading 10
bytes from the 6-byte file through a READ fd at offset 0 returns the 6
bytes "hello!" and moves the offset to 6. -/
theorem c4_read_file_returns_slice_witness :
    (∀ b ∈ c4Ino.data_block_indices, isRawBlock c4dm c4Sb.block_size b = true) ∧
    C4Post c4dm c4auth 1 10 103 ⟨1, OpenMode.READ, 0⟩ c4Sb.block_size c4Ino :=
  ⟨by decide,
   c4_read_file_returns_slice c4dm c4auth 1 10 103 ⟨0⟩ ⟨1, OpenMode.READ, 0⟩ c4Sb c4Ino
     (by decide) (by decide) (by decide) (by decide) (by decide) (by decide)
     (by decide) (by decide) (by decide) (by decide) (by decide)⟩

end SimFS
